import Mathlib

/-!
# Verification of the kidschurch puzzle-generation engine

Shallow embedding of the three puzzle generators of the repository
(`generateMaze` in the maze component, `generateWordSearch` in
`WordSearch.jsx`, `generateCrossword` / `canPlaceWord` / `placeWord` /
`getClue` in `Crossword.jsx`), together with proofs and refutations of the
specification's claims about them.

Conventions used throughout:

* JavaScript `Math.floor(Math.random() * k)` draws are modelled by an
  explicit random stream `rng : Nat → Nat`, consumed in program order with a
  running index; a draw of magnitude `k > 0` yields `rng i % k`, and a draw
  of magnitude `0` yields `0` (as `Math.floor(x * 0)` does).
* JavaScript numbers used as grid indices are embedded as `Int` where the
  source can produce negative indices (word search, crossword) and as `Nat`
  where it provably cannot (maze).
* Reading a missing array slot (`undefined` in JavaScript) is modelled by
  `Option`: a grid is a total function returning `none` outside the region
  the source allocated.
* A JavaScript `TypeError` thrown by accessing a property of `undefined` is
  modelled by `Except JsError` with the `JsError.typeError` condition.
-/

/-- Error conditions: `typeError` models the JavaScript `TypeError` raised by
accessing a property of `undefined`; `invalidArgument` is the designed
validation condition the specification postulates (the source never raises
it). -/
inductive JsError
  | typeError
  | invalidArgument
deriving DecidableEq

/-- `word[i]` (all uses are in range, so the default is never read). -/
def letterAt (w : List Char) (i : Nat) : Char := w.getD i 'A'

namespace CW


/-! ## Crossword generator (`Crossword.jsx`)

The grid is a 15×15 array of single-character strings, `'_'` marking an
empty cell.  It is embedded as a total function `Int → Int → Option Char`:
`some '_'` inside the allocated 15×15 region initially, `none` outside it
(reading `grid[r][c]` off the allocated region yields `undefined` in the
source, which every comparison treats as a non-`'_'`, non-matching value).
-/

abbrev CWGrid := Int → Int → Option Char

/-- `gridSize` of `generateCrossword`. -/
def gridSize : Nat := 15

/-- The freshly allocated grid: `'_'` everywhere inside 15×15. -/
def emptyGrid : CWGrid := fun r c =>
  if 0 ≤ r ∧ r < 15 ∧ 0 ≤ c ∧ c < 15 then some '_' else none

/-- `grid[r][c] = ch` (JavaScript array writes create the slot even at a
negative index, so the write is unconditional). -/
def writeCell (g : CWGrid) (r c : Int) (ch : Char) : CWGrid :=
  fun r' c' => if r' = r ∧ c' = c then some ch else g r' c'

/-- An entry of the `placedWords` array of `generateCrossword`. -/
structure CWPlaced where
  text : List Char
  row : Int
  col : Int
  vertical : Bool
deriving DecidableEq

/-- The grid cell occupied by letter `i` of a word anchored at
`(row, col)` with the given orientation. -/
def cellAt (row col : Int) (vertical : Bool) (i : Nat) : Int × Int :=
  if vertical then (row + i, col) else (row, col + i)

/-- All cells occupied by a placed word. -/
def pwCells (pw : CWPlaced) : List (Int × Int) :=
  (List.range pw.text.length).map (cellAt pw.row pw.col pw.vertical)

/-- Body of the per-letter check of `canPlaceWord`, vertical branch: a
non-empty cell must hold exactly the candidate's letter (and is then
skipped), an empty cell must pass the four adjacency-clearance tests. -/
def vBody (g : CWGrid) (w : List Char) (row col : Int) (i : Nat) : Bool :=
  let ch := letterAt w i
  let cell := g (row + i) col
  if cell ≠ some '_' then cell = some ch
  else
    !(decide (0 < col) && decide (g (row + i) (col - 1) ≠ some '_')) &&
    !(decide (col < 14) && decide (g (row + i) (col + 1) ≠ some '_')) &&
    !(decide (i = 0) && decide (0 < row) && decide (g (row - 1) col ≠ some '_')) &&
    !(decide (i = w.length - 1) && decide (row + (w.length : Int) < 15) &&
       decide (g (row + (w.length : Int)) col ≠ some '_'))

/-- Body of the per-letter check of `canPlaceWord`, horizontal branch. -/
def hBody (g : CWGrid) (w : List Char) (row col : Int) (i : Nat) : Bool :=
  let ch := letterAt w i
  let cell := g row (col + i)
  if cell ≠ some '_' then cell = some ch
  else
    !(decide (0 < row) && decide (g (row - 1) (col + i) ≠ some '_')) &&
    !(decide (row < 14) && decide (g (row + 1) (col + i) ≠ some '_')) &&
    !(decide (i = 0) && decide (0 < col) && decide (g row (col - 1) ≠ some '_')) &&
    !(decide (i = w.length - 1) && decide (col + (w.length : Int) < 15) &&
       decide (g row (col + (w.length : Int)) ≠ some '_'))

/-- `canPlaceWord(grid, word, row, col, vertical)` of `Crossword.jsx`. -/
def canPlaceWord (g : CWGrid) (w : List Char) (row col : Int) (vertical : Bool) : Bool :=
  if vertical then
    if row < 0 ∨ 15 < row + (w.length : Int) then false
    else (List.range w.length).all fun i => vBody g w row col i
  else
    if col < 0 ∨ 15 < col + (w.length : Int) then false
    else (List.range w.length).all fun i => hBody g w row col i

/-- `placeWord(grid, word, row, col, vertical)` of `Crossword.jsx`. -/
def placeWord (g : CWGrid) (w : List Char) (row col : Int) (vertical : Bool) : CWGrid :=
  (List.range w.length).foldl (fun g' i =>
    writeCell g' (cellAt row col vertical i).1 (cellAt row col vertical i).2 (letterAt w i)) g

/-- The candidate anchors scanned by the intersection search of
`generateCrossword`, in source scan order: candidate letter index `i`
outermost, then placed words in placement order, then letter index `j` of
the placed word; a candidate arises whenever the two letters match. -/
def cwCandidates (placed : List CWPlaced) (w : List Char) : List (Int × Int × Bool) :=
  (List.range w.length).flatMap fun i =>
    placed.flatMap fun pw =>
      (List.range pw.text.length).filterMap fun j =>
        if letterAt pw.text j = letterAt w i then
          some (if pw.vertical then (pw.row + (j : Int), pw.col - (i : Int), false)
                else (pw.row - (i : Int), pw.col + (j : Int), true))
        else none

/-- First candidate anchor accepted by `canPlaceWord` (the source breaks out
of all three scan loops at the first success). -/
def tryPlaceCW (g : CWGrid) (placed : List CWPlaced) (w : List Char) :
    Option (Int × Int × Bool) :=
  (cwCandidates placed w).find? fun cand => canPlaceWord g w cand.1 cand.2.1 cand.2.2

/-- Mutable state of `generateCrossword`: the letter grid and the
`placedWords` array. -/
structure CWState where
  grid : CWGrid
  placed : List CWPlaced

/-- Processing of one word of the `wordIdx` loop of `generateCrossword`. -/
def cwStep (s : CWState) (w : List Char) : CWState :=
  match tryPlaceCW s.grid s.placed w with
  | some (r, c, v) => ⟨placeWord s.grid w r c v, s.placed ++ [⟨w, r, c, v⟩]⟩
  | none => s

/-- The placement phase of `generateCrossword`: seed the first word
horizontally at `row = floor(15/2) = 7`, `col = floor((15 - len)/2)`
(JavaScript `Math.floor`, hence `Int.fdiv`), then process the words at
indices `1 ≤ wordIdx < min(words.length, 8)`. -/
def cwAux (words : List (List Char)) : CWState :=
  match words with
  | [] => ⟨emptyGrid, []⟩
  | w0 :: rest =>
      let startRow : Int := 7
      let startCol : Int := Int.fdiv (15 - (w0.length : Int)) 2
      let g1 := placeWord emptyGrid w0 startRow startCol false
      (rest.take 7).foldl cwStep ⟨g1, [⟨w0, startRow, startCol, false⟩]⟩

/-- A cell of the display grid returned by `generateCrossword`:
`letter = none` embeds the empty string stored for `'_'` cells. -/
structure CWCell where
  letter : Option Char
  isBlack : Bool
  hasNumber : Bool
  number : Option Nat
deriving DecidableEq

/-- An entry of the `across` / `down` clue lists. -/
structure ClueEntry where
  number : Nat
  clue : List Char
deriving DecidableEq

/-- The fixed word-to-clue dictionary of `getClue` (the apostrophe of the
JESUS clue is written `Char.ofNat 39`). -/
def clueTable : List (List Char × List Char) :=
  [("NOAH".toList, "Built the big boat".toList),
   ("ARK".toList, "Big floating boat".toList),
   ("RAINBOW".toList, "Colors in the sky".toList),
   ("ANIMALS".toList, "In the big boat".toList),
   ("WATER".toList, "Falls from sky".toList),
   ("DOVE".toList, "White bird".toList),
   ("PROMISE".toList, "God said yes".toList),
   ("FLOOD".toList, "Lots of rain".toList),
   ("RAIN".toList, "Falls from clouds".toList),
   ("BOAT".toList, "Floats on water".toList),
   ("SAVE".toList, "Help others".toList),
   ("PAIR".toList, "Two together".toList),
   ("GOD".toList, "Made everything".toList),
   ("LOVE".toList, "Big hug feeling".toList),
   ("JESUS".toList, "God".toList ++ [Char.ofNat 39] ++ "s son".toList),
   ("PRAY".toList, "Talk to God".toList),
   ("BIBLE".toList, "God".toList ++ [Char.ofNat 39] ++ "s book".toList),
   ("FAITH".toList, "Believe in God".toList)]

/-- `getClue(word)`: dictionary lookup with the
`"<word> (starts with <first letter>)"` fallback (for the empty word,
`charAt(0)` contributes the empty string). -/
def getClue (w : List Char) : List Char :=
  match clueTable.find? fun p => p.1 = w with
  | some p => p.2
  | none => w ++ " (starts with ".toList ++ w.take 1 ++ ")".toList

/-- Conversion of a raw grid cell to a display cell. -/
def mkDisplayCell (oc : Option Char) : CWCell :=
  let ch := oc.getD '_'
  ⟨if ch = '_' then none else some ch, ch = '_', false, none⟩

/-- The display conversion of `generateCrossword` (only the allocated
15×15 region is mapped). -/
def toDisplay (g : CWGrid) : List (List CWCell) :=
  (List.range 15).map fun r : Nat => (List.range 15).map fun c : Nat =>
    mkDisplayCell (g (r : Int) (c : Int))

/-- Default display cell (the `getD` fallback; never read on the 15×15
region). -/
def cwDefaultCell : CWCell := ⟨none, true, false, none⟩

/-- `displayGrid[r][c].hasNumber = true; displayGrid[r][c].number = n`.
An anchor outside the display grid makes the source read a property of
`undefined`, i.e. throw a `TypeError`. -/
def setCellNumber (dg : List (List CWCell)) (r c : Int) (n : Nat) :
    Except JsError (List (List CWCell)) :=
  if 0 ≤ r ∧ r < (dg.length : Int) then
    let row := dg.getD r.toNat []
    if 0 ≤ c ∧ c < (row.length : Int) then
      Except.ok (dg.set r.toNat (row.set c.toNat
        { row.getD c.toNat cwDefaultCell with
            hasNumber := true, number := some n }))
    else Except.error .typeError
  else Except.error .typeError

/-- One iteration of the numbering loop of `generateCrossword`. -/
def numStep
    (acc : Except JsError (List (List CWCell) × List ClueEntry × List ClueEntry × Nat))
    (pw : CWPlaced) :
    Except JsError (List (List CWCell) × List ClueEntry × List ClueEntry × Nat) := do
  let (dg, across, down, n) ← acc
  let dg' ← setCellNumber dg pw.row pw.col n
  if pw.vertical then
    pure (dg', across, down ++ [⟨n, getClue pw.text⟩], n + 1)
  else
    pure (dg', across ++ [⟨n, getClue pw.text⟩], down, n + 1)

/-- The numbering loop of `generateCrossword`: one global counter starting
at 1, anchors marked in placement order, clues appended to `across` or
`down` by orientation. -/
def numberClues (dg0 : List (List CWCell)) (placed : List CWPlaced) :
    Except JsError (List (List CWCell) × List ClueEntry × List ClueEntry × Nat) :=
  placed.foldl numStep (Except.ok (dg0, [], [], 1))

/-- The result object `{grid, across, down}` of `generateCrossword`. -/
structure CWResult where
  grid : List (List CWCell)
  across : List ClueEntry
  down : List ClueEntry
deriving DecidableEq

/-- `generateCrossword(words)` of `Crossword.jsx`. -/
def generateCrossword (words : List (List Char)) : Except JsError CWResult :=
  if words = [] then Except.ok ⟨[], [], []⟩
  else
    let s := cwAux words
    match numberClues (toDisplay s.grid) s.placed with
    | .ok (dg, across, down, _) => .ok ⟨dg, across, down⟩
    | .error e => .error e

/-- The 15×15 allocated region of the crossword grid. -/
def InBounds (r c : Int) : Prop := 0 ≤ r ∧ r < 15 ∧ 0 ≤ c ∧ c < 15

/-- Display cell at row `r`, column `c` of a crossword result. -/
def cellOf (res : CWResult) (r c : Nat) : CWCell :=
  (res.grid.getD r []).getD c cwDefaultCell

/-- Invariant of the placement phase of `generateCrossword` (for inputs
whose words contain no `'_'` and whose first word fits the grid): the grid
function is `some` exactly on the 15×15 region, a cell differs from `'_'`
exactly when some placed word covers it, all placed cells and anchors are
in bounds, and no placed word contains `'_'`. -/
structure CWInv (s : CWState) : Prop where
  dom : ∀ r c : Int, (s.grid r c).isSome ↔ InBounds r c
  occ : ∀ r c : Int, InBounds r c →
    (s.grid r c ≠ some '_' ↔ ∃ pw ∈ s.placed, (r, c) ∈ pwCells pw)
  cells : ∀ pw ∈ s.placed, ∀ p ∈ pwCells pw, InBounds p.1 p.2
  anchors : ∀ pw ∈ s.placed, InBounds pw.row pw.col
  clean : ∀ pw ∈ s.placed, '_' ∉ pw.text

/-- Concrete input exhibiting a double intersection (see `C3`). -/
def cwWords3 : List (List Char) := ["GOD", "GAX", "DBY"].map String.toList

/-- `cwWords3` extended with a word that crosses two placed words. -/
def cwWords4 : List (List Char) := ["GOD", "GAX", "DBY", "XCY"].map String.toList

end CW

namespace WS

/-! ## Word-search generator (`WordSearch.jsx`)

The grid is `gridSize x gridSize` with `gridSize = 20`; `grid[y][x]` holds
a single uppercase letter.  Direction-3 (diagonal down-left) attempts can
compute negative `x` coordinates, and the source then reads and even
writes `grid[y][negative]` (JavaScript array properties), so coordinates
are embedded as `Int` and the grid as a total function returning `none`
outside the slots ever created.  `Math.random()` is consumed in program
order: 400 draws fill the grid row-major, then three draws per placement
attempt (direction, x anchor, y anchor).
-/

abbrev WSGrid := Int → Int → Option Char

/-- `gridSize` of the word-search component. -/
def gridSize : Nat := 20

/-- One recorded placement attempt: the (normalized) word, the drawn
direction (0 horizontal, 1 vertical, 2 diagonal down-right, 3 diagonal
down-left) and the drawn anchor. -/
structure Attempt where
  word : List Char
  dir : Nat
  x : Int
  y : Int
deriving DecidableEq

/-- An entry of the `placedWords` array: the word and the ordered path of
`(x, y)` cells it occupies. -/
structure PlacedWord where
  word : List Char
  path : List (Int × Int)
deriving DecidableEq

/-- State of `generateWordSearch`: the letter grid (`grid y x`), the
`placedWords` array, the next random-draw index, and the trace of all
placement attempts made so far. -/
structure WSState where
  grid : WSGrid
  placed : List PlacedWord
  rngIdx : Nat
  attempts : List Attempt

/-- `Math.floor(Math.random() * k)`: uniform in `[0, k)`, and `0` when
`k = 0`. -/
def draw (rng : Nat → Nat) (i k : Nat) : Nat :=
  if k = 0 then 0 else rng i % k

/-- The initial grid: every in-bounds cell holds
`String.fromCharCode(65 + Math.floor(Math.random() * 26))`, the fill loop
consuming draws row-major (`y` outer, `x` inner). -/
def initGrid (rng : Nat → Nat) : WSGrid := fun y x =>
  if 0 ≤ x ∧ x < 20 ∧ 0 ≤ y ∧ y < 20 then
    some (Char.ofNat (65 + rng (y.toNat * 20 + x.toNat) % 26))
  else none

/-- The state after the fill loop: 400 draws consumed, nothing placed. -/
def initState (rng : Nat → Nat) : WSState :=
  ⟨initGrid rng, [], 400, []⟩

/-- `word.toUpperCase().replace(/\s/g, "")`. -/
def normalize (w : List Char) : List Char :=
  (w.map Char.toUpper).filter fun c => !c.isWhitespace

/-- The cell occupied by letter `i` of an attempt, per direction (the
`checkX`/`checkY` and `placeX`/`placeY` formulas of the source). -/
def wsCellAt (dir : Nat) (x y : Int) (i : Nat) : Int × Int :=
  if dir = 0 then (x + i, y)
  else if dir = 1 then (x, y + i)
  else if dir = 2 then (x + i, y + i)
  else (x - i, y + i)

/-- All cells of an attempt, in letter order. -/
def wsCells (dir : Nat) (x y : Int) (len : Nat) : List (Int × Int) :=
  (List.range len).map (wsCellAt dir x y)

/-- The conflict check of one attempt: a cell lying on some placed word's
path must already hold exactly the letter the word would put there;
unclaimed cells (filler) are always overwritable. -/
def wsCanPlace (g : WSGrid) (placed : List PlacedWord) (w : List Char)
    (dir : Nat) (x y : Int) : Bool :=
  (List.range w.length).all fun i =>
    !(placed.any fun pw => pw.path.any fun pt => pt = wsCellAt dir x y i) ||
    (g (wsCellAt dir x y i).2 (wsCellAt dir x y i).1 == some (letterAt w i))

/-- `grid[y][x] = ch` (unconditional: the row always exists for reachable
writes, and a negative `x` creates an array property). -/
def wsWriteCell (g : WSGrid) (x y : Int) (ch : Char) : WSGrid :=
  fun y' x' => if x' = x ∧ y' = y then some ch else g y' x'

/-- Writing an accepted word's letters along its path, in letter order. -/
def wsWrite (g : WSGrid) (w : List Char) (dir : Nat) (x y : Int) : WSGrid :=
  (List.range w.length).foldl (fun g' i =>
    wsWriteCell g' (wsCellAt dir x y i).1 (wsCellAt dir x y i).2 (letterAt w i)) g

/-- The direction draw of the next attempt. -/
def wsAttemptDir (rng : Nat → Nat) (s : WSState) : Nat := rng s.rngIdx % 4

/-- The x-anchor draw: the range is shortened by the word length only for
directions 0 and 2 (the source's formula — note direction 3 is *not*
shortened, although its cells extend `len - 1` steps to the left). -/
def wsAttemptX (rng : Nat → Nat) (w : List Char) (s : WSState) : Int :=
  (draw rng (s.rngIdx + 1)
    (20 - (if wsAttemptDir rng s = 0 ∨ wsAttemptDir rng s = 2 then w.length else 0)) : Nat)

/-- The y-anchor draw: shortened for directions 1, 2 and 3. -/
def wsAttemptY (rng : Nat → Nat) (w : List Char) (s : WSState) : Int :=
  (draw rng (s.rngIdx + 2)
    (20 - (if wsAttemptDir rng s = 1 ∨ wsAttemptDir rng s = 2 ∨ wsAttemptDir rng s = 3
           then w.length else 0)) : Nat)

/-- One attempt of the retry loop: three draws, the attempt is recorded,
and the word is placed (letters written, `placedWords` extended) exactly
when the conflict check passes; the returned flag is `placed`. -/
def wsAttemptOnce (rng : Nat → Nat) (w : List Char) (s : WSState) : WSState × Bool :=
  if wsCanPlace s.grid s.placed w (wsAttemptDir rng s) (wsAttemptX rng w s)
      (wsAttemptY rng w s) then
    (⟨wsWrite s.grid w (wsAttemptDir rng s) (wsAttemptX rng w s) (wsAttemptY rng w s),
      s.placed ++ [⟨w, wsCells (wsAttemptDir rng s) (wsAttemptX rng w s)
        (wsAttemptY rng w s) w.length⟩],
      s.rngIdx + 3,
      s.attempts ++ [⟨w, wsAttemptDir rng s, wsAttemptX rng w s, wsAttemptY rng w s⟩]⟩,
     true)
  else
    (⟨s.grid, s.placed, s.rngIdx + 3,
      s.attempts ++ [⟨w, wsAttemptDir rng s, wsAttemptX rng w s, wsAttemptY rng w s⟩]⟩,
     false)

/-- The retry loop `while (!placed && attempts < 50)`. -/
def wsAttemptLoop (rng : Nat → Nat) (w : List Char) : Nat → WSState → WSState
  | 0, s => s
  | n + 1, s =>
    match wsAttemptOnce rng w s with
    | (s', true) => s'
    | (s', false) => wsAttemptLoop rng w n s'

/-- Processing of one input word: normalize, silently skip words longer
than the grid, otherwise run the retry loop with a budget of 50. -/
def wsStep (rng : Nat → Nat) (s : WSState) (w : List Char) : WSState :=
  let wu := normalize w
  if 20 < wu.length then s else wsAttemptLoop rng wu 50 s

/-- `generateWordSearch` of `WordSearch.jsx` (grid fill and word
placement; the canvas drawing below it is out of scope). -/
def generateWordSearch (words : List (List Char)) (rng : Nat → Nat) : WSState :=
  words.foldl (wsStep rng) (initState rng)

/-- Invariant: every placed word's path has one cell per letter and the
grid holds the word's letters along its path. -/
def WSInv (s : WSState) : Prop :=
  ∀ pw ∈ s.placed, pw.path.length = pw.word.length ∧
    ∀ k, k < pw.word.length →
      s.grid (pw.path.getD k (0, 0)).2 (pw.path.getD k (0, 0)).1 =
        some (letterAt pw.word k)

/-- Input of the concrete direction-3 out-of-bounds run (see `C2`). -/
def wsWords2 : List (List Char) := [['A', 'B']]

/-- Random stream of the concrete run: the direction draw of the first
attempt (index 400) yields 3 (diagonal down-left), all other draws 0. -/
def wsRng2 : Nat → Nat := fun n => if n = 400 then 3 else 0

/-- Input of the concrete overlap run (see the witness of `C6`). -/
def wsWords6 : List (List Char) := [['A', 'A'], ['A', 'C']]

/-- Random stream of the overlap run: the second word's direction draw
(index 403) yields 1 (vertical), all other draws 0. -/
def wsRng6 : Nat → Nat := fun n => if n = 403 then 1 else 0

end WS

namespace Maze

/-! ## Maze generator (`generateMaze` in the maze component)

Randomized depth-first backtracking on a `cols x rows` cell grid.  All
indices touched by the loop are provably in bounds, so positions are
`Nat` pairs and the grid a total function `g y x` (the source's
`grid[y][x]`).  The stack is a list whose head is the top (JavaScript
`push`/`pop` at the array end).  The loop runs until the stack empties;
it is embedded with explicit fuel, and `2 * cols * rows` steps are proved
sufficient.  One random draw is consumed per forward step (the neighbor
pick); no draw happens on backtracking.
-/

/-- A maze cell: four wall flags and the generation-time `visited` flag. -/
structure Cell where
  top : Bool
  right : Bool
  bottom : Bool
  left : Bool
  visited : Bool
deriving DecidableEq

/-- The maze grid, `g y x` for the source's `grid[y][x]`. -/
abbrev MGrid := Nat → Nat → Cell

/-- A cell position `{x, y}`. -/
structure Pos where
  x : Nat
  y : Nat
deriving DecidableEq

/-- The four wall sides, in the source's neighbor scan order. -/
inductive Dir
  | top
  | right
  | bottom
  | left
deriving DecidableEq

/-- A freshly initialized cell: all four walls present, not visited. -/
def initCell : Cell := ⟨true, true, true, true, false⟩

/-- The initial grid. -/
def initGrid : MGrid := fun _ _ => initCell

/-- Pointwise grid update at `grid[y][x]`. -/
def updateCell (g : MGrid) (y x : Nat) (f : Cell → Cell) : MGrid :=
  fun y' x' => if y' = y ∧ x' = x then f (g y x) else g y' x'

/-- The in-bounds unvisited neighbors of a cell, in source scan order:
top, right, bottom, left. -/
def neighbors (cols rows : Nat) (g : MGrid) (p : Pos) : List (Pos × Dir) :=
  (if 0 < p.y ∧ (g (p.y - 1) p.x).visited = false
   then [(⟨p.x, p.y - 1⟩, Dir.top)] else []) ++
  (if p.x + 1 < cols ∧ (g p.y (p.x + 1)).visited = false
   then [(⟨p.x + 1, p.y⟩, Dir.right)] else []) ++
  (if p.y + 1 < rows ∧ (g (p.y + 1) p.x).visited = false
   then [(⟨p.x, p.y + 1⟩, Dir.bottom)] else []) ++
  (if 0 < p.x ∧ (g p.y (p.x - 1)).visited = false
   then [(⟨p.x - 1, p.y⟩, Dir.left)] else [])

/-- Removal of the wall between `cur` and `next`: both cells' facing wall
flags are cleared atomically. -/
def carve (g : MGrid) (cur next : Pos) (d : Dir) : MGrid :=
  match d with
  | .top =>
      updateCell (updateCell g cur.y cur.x fun c => { c with top := false })
        next.y next.x fun c => { c with bottom := false }
  | .right =>
      updateCell (updateCell g cur.y cur.x fun c => { c with right := false })
        next.y next.x fun c => { c with left := false }
  | .bottom =>
      updateCell (updateCell g cur.y cur.x fun c => { c with bottom := false })
        next.y next.x fun c => { c with top := false }
  | .left =>
      updateCell (updateCell g cur.y cur.x fun c => { c with left := false })
        next.y next.x fun c => { c with right := false }

/-- Loop state: the grid, the stack (head = top), the current cell, the
number of wall carvings performed, and the next random-draw index. -/
structure MState where
  grid : MGrid
  stack : List Pos
  cur : Pos
  carves : Nat
  rngIdx : Nat

/-- The uniformly random pick among the unvisited neighbors
(`neighbors[Math.floor(Math.random() * neighbors.length)]`; only evaluated
when the list is non-empty). -/
def pickOf (cols rows : Nat) (rng : Nat → Nat) (s : MState) : Pos × Dir :=
  (neighbors cols rows s.grid s.cur).getD
    (rng s.rngIdx % (neighbors cols rows s.grid s.cur).length) (⟨0, 0⟩, Dir.top)

/-- One iteration of the `while (stack.length > 0)` loop body: carve to a
random unvisited neighbor and advance (pushing the current cell), or pop
and backtrack at a dead end. -/
def mazeStep (cols rows : Nat) (rng : Nat → Nat) (s : MState) : MState :=
  match s.stack with
  | [] => s
  | t :: rest =>
    if neighbors cols rows s.grid s.cur = [] then
      { s with stack := rest, cur := t }
    else
      { grid := updateCell
          (carve s.grid s.cur (pickOf cols rows rng s).1 (pickOf cols rows rng s).2)
          (pickOf cols rows rng s).1.y (pickOf cols rows rng s).1.x
          fun c => { c with visited := true },
        stack := s.cur :: s.stack,
        cur := (pickOf cols rows rng s).1,
        carves := s.carves + 1,
        rngIdx := s.rngIdx + 1 }

/-- The loop with explicit fuel; `2 * cols * rows` iterations are enough
to empty the stack (`Maze.C5_terminates`). -/
def mazeLoop (cols rows : Nat) (rng : Nat → Nat) : Nat → MState → MState
  | 0, s => s
  | fuel + 1, s =>
    if s.stack = [] then s
    else mazeLoop cols rows rng fuel (mazeStep cols rows rng s)

/-- The state before the loop: origin marked visited and pushed. -/
def initState (cols rows : Nat) : MState :=
  ⟨updateCell initGrid 0 0 fun c => { c with visited := true },
   [⟨0, 0⟩], ⟨0, 0⟩, 0, 0⟩

/-- The loop state after the backtracking loop of `generateMaze`. -/
def mazeFinal (cols rows : Nat) (rng : Nat → Nat) : MState :=
  mazeLoop cols rows rng (2 * cols * rows) (initState cols rows)

/-- The entrance/exit openings: `grid[0][0].top = false` and
`grid[rows-1][cols-1].bottom = false`. -/
def openEnds (cols rows : Nat) (g : MGrid) : MGrid :=
  updateCell (updateCell g 0 0 fun c => { c with top := false })
    (rows - 1) (cols - 1) fun c => { c with bottom := false }

/-- `generateMaze(cols, rows)` of the maze component. -/
def generateMaze (cols rows : Nat) (rng : Nat → Nat) : MGrid :=
  openEnds cols rows (mazeFinal cols rows rng).grid

/-- `generateMaze` behind the array accesses that fail on a degenerate
grid: with `cols <= 0` or `rows <= 0` the initialization loops allocate no
cell, and the first statement of the loop setup
(`grid[current.y][current.x].visited = true`) accesses a property of
`undefined` — a JavaScript `TypeError`, not a designed validation. -/
def generateMazeChecked (cols rows : Int) (rng : Nat → Nat) : Except JsError MGrid :=
  if 0 < cols ∧ 0 < rows then Except.ok (generateMaze cols.toNat rows.toNat rng)
  else Except.error JsError.typeError

/-- Grid-graph adjacency of `q` relative to `p` for wall side `d` of `p`. -/
def adjOf (p q : Pos) (d : Dir) : Prop :=
  match d with
  | .top => q.x = p.x ∧ q.y + 1 = p.y
  | .right => q.x = p.x + 1 ∧ q.y = p.y
  | .bottom => q.x = p.x ∧ q.y = p.y + 1
  | .left => q.x + 1 = p.x ∧ q.y = p.y

/-- Carved adjacency: grid-adjacent cells whose shared wall is removed on
both sides. -/
def carvedAdj (g : MGrid) (p q : Pos) : Prop :=
  (q.x = p.x ∧ q.y + 1 = p.y ∧ (g p.y p.x).top = false ∧ (g q.y q.x).bottom = false) ∨
  (q.x = p.x + 1 ∧ q.y = p.y ∧ (g p.y p.x).right = false ∧ (g q.y q.x).left = false) ∨
  (q.x = p.x ∧ q.y = p.y + 1 ∧ (g p.y p.x).bottom = false ∧ (g q.y q.x).top = false) ∨
  (q.x + 1 = p.x ∧ q.y = p.y ∧ (g p.y p.x).left = false ∧ (g q.y q.x).right = false)

/-- Reachability through carved passages: what a flood-fill/BFS from `p`
visits. -/
def Reach (g : MGrid) (p q : Pos) : Prop := Relation.ReflTransGen (carvedAdj g) p q

/-- In-bounds positions. -/
def bounded (cols rows : Nat) (p : Pos) : Prop := p.x < cols ∧ p.y < rows

/-- The number of in-bounds unvisited cells (pairs are `(x, y)`). -/
def unvisitedCount (cols rows : Nat) (g : MGrid) : Nat :=
  ((Finset.range cols ×ˢ Finset.range rows).filter
    fun q => (g q.2 q.1).visited = false).card

/-- The loop measure: each iteration on a non-empty stack decreases it. -/
def loopMeasure (cols rows : Nat) (s : MState) : Nat :=
  2 * unvisitedCount cols rows s.grid + s.stack.length

/-- Multiplicity of a cell in the stack, counting the current cell. -/
def occ (s : MState) (p : Pos) : Nat :=
  s.stack.count p + (if s.cur = p then 1 else 0)

/-- One-sided wall monotonicity: `g'` has no wall that `g` lacks. -/
def wallsMono (g g' : MGrid) : Prop :=
  ∀ y x, ((g y x).top = false → (g' y x).top = false) ∧
    ((g y x).right = false → (g' y x).right = false) ∧
    ((g y x).bottom = false → (g' y x).bottom = false) ∧
    ((g y x).left = false → (g' y x).left = false)

/-- The loop invariant of the depth-first backtracker. -/
structure MInv (cols rows : Nat) (s : MState) : Prop where
  curVis : (s.grid s.cur.y s.cur.x).visited = true
  curBnd : bounded cols rows s.cur
  stackVis : ∀ p ∈ s.stack, (s.grid p.y p.x).visited = true ∧ bounded cols rows p
  originVis : (s.grid 0 0).visited = true
  lastOrigin : s.stack ≠ [] → s.stack.getLast? = some ⟨0, 0⟩
  emptyCur : s.stack = [] → s.cur = ⟨0, 0⟩
  occOne : ∀ p, bounded cols rows p → (s.grid p.y p.x).visited = true →
    neighbors cols rows s.grid p ≠ [] → 1 ≤ occ s p
  occOrigin : 2 ≤ occ s ⟨0, 0⟩ ∨ neighbors cols rows s.grid ⟨0, 0⟩ = []
  carvesTotal : s.carves + 1 + unvisitedCount cols rows s.grid = cols * rows
  reach : ∀ p, bounded cols rows p → (s.grid p.y p.x).visited = true →
    Reach s.grid ⟨0, 0⟩ p

end Maze

namespace CW

/-! ### Lemmas about `canPlaceWord` -/

/-- A successful `canPlaceWord` check guarantees that every cell the word
would occupy that is not an empty in-grid cell already holds exactly the
letter the word would put there. -/
theorem canPlaceWord_occupied_matches (g : CWGrid) (w : List Char) (r c : Int) (v : Bool)
    (h : canPlaceWord g w r c v = true) (i : Nat) (hi : i < w.length)
    (hocc : g (cellAt r c v i).1 (cellAt r c v i).2 ≠ some '_') :
    g (cellAt r c v i).1 (cellAt r c v i).2 = some (letterAt w i) := by
  cases v with
  | true =>
    simp only [canPlaceWord, if_true] at h
    by_cases hb : r < 0 ∨ 15 < r + (w.length : Int)
    · rw [if_pos hb] at h; exact absurd h (by simp)
    · rw [if_neg hb] at h
      have hbody := List.all_eq_true.mp h i (List.mem_range.mpr hi)
      simp only [cellAt, if_true] at hocc ⊢
      unfold vBody at hbody
      rw [if_pos hocc] at hbody
      exact of_decide_eq_true hbody
  | false =>
    simp only [canPlaceWord, Bool.false_eq_true, if_false] at h
    by_cases hb : c < 0 ∨ 15 < c + (w.length : Int)
    · rw [if_pos hb] at h; exact absurd h (by simp)
    · rw [if_neg hb] at h
      have hbody := List.all_eq_true.mp h i (List.mem_range.mpr hi)
      simp only [cellAt, Bool.false_eq_true, if_false] at hocc ⊢
      unfold hBody at hbody
      rw [if_pos hocc] at hbody
      exact of_decide_eq_true hbody

/-- An anchor returned by `tryPlaceCW` passed `canPlaceWord`. -/
theorem tryPlaceCW_canPlace (g : CWGrid) (placed : List CWPlaced) (w : List Char)
    (cand : Int × Int × Bool) (h : tryPlaceCW g placed w = some cand) :
    canPlaceWord g w cand.1 cand.2.1 cand.2.2 = true := by
  unfold tryPlaceCW at h
  have h2 := List.find?_some h
  simpa using h2

/-- Distinct letter indices occupy distinct cells. -/
theorem cellAt_injective (r c : Int) (v : Bool) (j k : Nat)
    (h : cellAt r c v j = cellAt r c v k) : j = k := by
  cases v <;> simp only [cellAt, Bool.false_eq_true, if_false, if_true,
    Prod.mk.injEq] at h <;> omega

/-- A cell occupied by no letter index below `n` is untouched by the first
`n` writes of `placeWord`. -/
theorem foldWrite_not_mem (g : CWGrid) (w : List Char) (r c : Int) (v : Bool)
    (q : Int × Int) (n : Nat) (hq : ∀ i, i < n → cellAt r c v i ≠ q) :
    ((List.range n).foldl (fun g' i =>
        writeCell g' (cellAt r c v i).1 (cellAt r c v i).2 (letterAt w i)) g)
      q.1 q.2 = g q.1 q.2 := by
  induction n with
  | zero => simp
  | succ n ih =>
    rw [List.range_succ, List.foldl_append, List.foldl_cons, List.foldl_nil]
    show writeCell _ _ _ _ q.1 q.2 = _
    rw [writeCell]
    rw [if_neg, ih (fun i hi => hq i (Nat.lt_succ_of_lt hi))]
    intro hc
    exact hq n (Nat.lt_succ_self n) (Prod.ext hc.1.symm hc.2.symm)

/-- After the first `n` writes of `placeWord`, the cell of letter index
`i < n` holds the word's letter `i`. -/
theorem foldWrite_mem (g : CWGrid) (w : List Char) (r c : Int) (v : Bool)
    (n i : Nat) (hi : i < n) :
    ((List.range n).foldl (fun g' i =>
        writeCell g' (cellAt r c v i).1 (cellAt r c v i).2 (letterAt w i)) g)
      (cellAt r c v i).1 (cellAt r c v i).2 = some (letterAt w i) := by
  induction n with
  | zero => omega
  | succ n ih =>
    rw [List.range_succ, List.foldl_append, List.foldl_cons, List.foldl_nil]
    show writeCell _ _ _ _ _ _ = _
    rw [writeCell]
    by_cases hin : i = n
    · subst hin; rw [if_pos ⟨rfl, rfl⟩]
    · have hlt : i < n := by omega
      rw [if_neg, ih hlt]
      intro hc
      exact hin (cellAt_injective r c v i n (Prod.ext hc.1 hc.2))

/-- `placeWord` leaves every cell the word does not occupy unchanged. -/
theorem placeWord_apply_not_mem (g : CWGrid) (w : List Char) (r c : Int) (v : Bool)
    (q : Int × Int) (hq : ∀ i, i < w.length → cellAt r c v i ≠ q) :
    placeWord g w r c v q.1 q.2 = g q.1 q.2 :=
  foldWrite_not_mem g w r c v q w.length hq

/-- `placeWord` stores letter `i` of the word at the cell of index `i`. -/
theorem placeWord_apply_mem (g : CWGrid) (w : List Char) (r c : Int) (v : Bool)
    (i : Nat) (hi : i < w.length) :
    placeWord g w r c v (cellAt r c v i).1 (cellAt r c v i).2 =
      some (letterAt w i) :=
  foldWrite_mem g w r c v w.length i hi

/-- Every cell checked by a successful `canPlaceWord` holds a value (it is
never a missing slot): it is either the matching letter or `'_'`. -/
theorem canPlaceWord_cell_some (g : CWGrid) (w : List Char) (r c : Int) (v : Bool)
    (h : canPlaceWord g w r c v = true) (i : Nat) (hi : i < w.length) :
    (g (cellAt r c v i).1 (cellAt r c v i).2).isSome := by
  by_cases hocc : g (cellAt r c v i).1 (cellAt r c v i).2 ≠ some '_'
  · rw [canPlaceWord_occupied_matches g w r c v h i hi hocc]; rfl
  · rw [not_not.mp hocc]; rfl

/-- The anchor is the cell of letter index 0. -/
theorem cellAt_zero (r c : Int) (v : Bool) : cellAt r c v 0 = (r, c) := by
  cases v <;> simp [cellAt]

/-- Membership in the cell list of a placed word. -/
theorem mem_pwCells (pw : CWPlaced) (q : Int × Int) :
    q ∈ pwCells pw ↔ ∃ i, i < pw.text.length ∧ cellAt pw.row pw.col pw.vertical i = q := by
  simp [pwCells, List.mem_map, List.mem_range]

/-- A letter read by `letterAt` at a valid index is a letter of the word. -/
theorem letterAt_mem (w : List Char) (i : Nat) (hi : i < w.length) :
    letterAt w i ∈ w := by
  rw [letterAt, List.getD_eq_getElem w 'A' hi]
  exact List.getElem_mem hi

/-- `tryPlaceCW` never places the empty word (it has no candidate anchors). -/
theorem tryPlaceCW_word_ne_nil (g : CWGrid) (placed : List CWPlaced) (w : List Char)
    (cand : Int × Int × Bool) (h : tryPlaceCW g placed w = some cand) : w ≠ [] := by
  intro hnil
  subst hnil
  simp [tryPlaceCW, cwCandidates] at h

/-- `placeWord` followed by recording the placed word preserves the
placement invariant, provided the word is `'_'`-free and lands entirely in
bounds. -/
theorem place_inv (g : CWGrid) (placed : List CWPlaced) (w : List Char)
    (r c : Int) (v : Bool) (hInv : CWInv ⟨g, placed⟩) (hw : '_' ∉ w)
    (hin : ∀ i, i < w.length → InBounds (cellAt r c v i).1 (cellAt r c v i).2)
    (hanchor : InBounds r c) :
    CWInv ⟨placeWord g w r c v, placed ++ [⟨w, r, c, v⟩]⟩ := by
  have hletter : ∀ i, i < w.length → letterAt w i ≠ '_' := by
    intro i hi heq
    exact hw (heq ▸ letterAt_mem w i hi)
  constructor
  case dom =>
    intro a b
    show (placeWord g w r c v a b).isSome = true ↔ InBounds a b
    by_cases hq : ∃ i, i < w.length ∧ cellAt r c v i = (a, b)
    · obtain ⟨i, hi, hc⟩ := hq
      have hval : placeWord g w r c v a b = some (letterAt w i) := by
        have h0 := placeWord_apply_mem g w r c v i hi
        rw [hc] at h0
        exact h0
      rw [hval]
      have hib : InBounds a b := by
        have h1 := hin i hi
        rw [hc] at h1
        exact h1
      simpa using hib
    · push_neg at hq
      have hval : placeWord g w r c v a b = g a b :=
        placeWord_apply_not_mem g w r c v (a, b) (fun i hi => hq i hi)
      rw [hval]
      exact hInv.dom a b
  case occ =>
    intro a b hab
    show placeWord g w r c v a b ≠ some '_' ↔ _
    by_cases hq : ∃ i, i < w.length ∧ cellAt r c v i = (a, b)
    · obtain ⟨i, hi, hc⟩ := hq
      have hval : placeWord g w r c v a b = some (letterAt w i) := by
        have h0 := placeWord_apply_mem g w r c v i hi
        rw [hc] at h0
        exact h0
      rw [hval]
      constructor
      · intro _
        refine ⟨⟨w, r, c, v⟩, List.mem_append_right _ (List.mem_singleton.mpr rfl), ?_⟩
        exact (mem_pwCells _ _).mpr ⟨i, hi, hc⟩
      · intro _ hcontra
        exact hletter i hi (by simpa using hcontra)
    · push_neg at hq
      have hval : placeWord g w r c v a b = g a b :=
        placeWord_apply_not_mem g w r c v (a, b) (fun i hi => hq i hi)
      rw [hval, hInv.occ a b hab]
      constructor
      · rintro ⟨pw, hpw, hmem⟩
        exact ⟨pw, List.mem_append_left _ hpw, hmem⟩
      · rintro ⟨pw, hpw, hmem⟩
        rcases List.mem_append.mp hpw with hold | hnew
        · exact ⟨pw, hold, hmem⟩
        · rw [List.mem_singleton.mp hnew] at hmem
          obtain ⟨i, hi, hc⟩ := (mem_pwCells _ _).mp hmem
          exact absurd hc (hq i hi)
  case cells =>
    intro pw hpw p hp
    rcases List.mem_append.mp hpw with hold | hnew
    · exact hInv.cells pw hold p hp
    · rw [List.mem_singleton.mp hnew] at hp
      obtain ⟨i, hi, hc⟩ := (mem_pwCells _ _).mp hp
      exact hc ▸ hin i hi
  case anchors =>
    intro pw hpw
    rcases List.mem_append.mp hpw with hold | hnew
    · exact hInv.anchors pw hold
    · rw [List.mem_singleton.mp hnew]
      exact hanchor
  case clean =>
    intro pw hpw
    rcases List.mem_append.mp hpw with hold | hnew
    · exact hInv.clean pw hold
    · rw [List.mem_singleton.mp hnew]
      exact hw

/-- One iteration of the word loop preserves the placement invariant. -/
theorem cwStep_inv (s : CWState) (w : List Char) (hInv : CWInv s) (hw : '_' ∉ w) :
    CWInv (cwStep s w) := by
  unfold cwStep
  cases htp : tryPlaceCW s.grid s.placed w with
  | none => exact hInv
  | some cand =>
    obtain ⟨r, c, v⟩ := cand
    have hcp := tryPlaceCW_canPlace s.grid s.placed w (r, c, v) htp
    have hin : ∀ i, i < w.length → InBounds (cellAt r c v i).1 (cellAt r c v i).2 := by
      intro i hi
      exact (hInv.dom _ _).mp (canPlaceWord_cell_some s.grid w r c v hcp i hi)
    have hne : w ≠ [] := tryPlaceCW_word_ne_nil s.grid s.placed w (r, c, v) htp
    have hanchor : InBounds r c := by
      have h0 := hin 0 (List.length_pos.mpr hne)
      rw [cellAt_zero] at h0
      exact h0
    exact place_inv s.grid s.placed w r c v hInv hw hin hanchor

/-- The word loop preserves the placement invariant. -/
theorem cwFold_inv (ws : List (List Char)) (s : CWState) (hInv : CWInv s)
    (hclean : ∀ w ∈ ws, '_' ∉ w) : CWInv (ws.foldl cwStep s) := by
  induction ws generalizing s with
  | nil => exact hInv
  | cons w ws ih =>
    rw [List.foldl_cons]
    exact ih (cwStep s w) (cwStep_inv s w hInv (hclean w (List.mem_cons_self w ws)))
      (fun w' hw' => hclean w' (List.mem_cons_of_mem w hw'))

/-- The freshly allocated grid with no placed words satisfies the
placement invariant. -/
theorem emptyGrid_inv : CWInv ⟨emptyGrid, []⟩ := by
  constructor
  case dom =>
    intro r c
    show (emptyGrid r c).isSome = true ↔ InBounds r c
    unfold emptyGrid InBounds
    split <;> simp_all
  case occ =>
    intro r c hrc
    show ¬emptyGrid r c = some '_' ↔ _
    unfold emptyGrid
    rw [if_pos ⟨hrc.1, hrc.2.1, hrc.2.2.1, hrc.2.2.2⟩]
    simp
  case cells => intro pw hpw; simp at hpw
  case anchors => intro pw hpw; simp at hpw
  case clean => intro pw hpw; simp at hpw

/-- The starting column of the seed word: nonnegative and leaving room for
the whole word whenever the word fits the grid. -/
theorem startCol_bounds (len : Nat) (hlen : len ≤ 15) :
    0 ≤ Int.fdiv (15 - (len : Int)) 2 ∧
      2 * Int.fdiv (15 - (len : Int)) 2 + (len : Int) ≤ 15 := by
  have hnn : (0 : Int) ≤ 15 - (len : Int) := by omega
  rw [Int.fdiv_eq_ediv _ (by omega)]
  have h1 : 0 ≤ (15 - (len : Int)) / 2 := Int.ediv_nonneg hnn (by omega)
  have h2 : (15 - (len : Int)) / 2 * 2 ≤ 15 - (len : Int) :=
    Int.ediv_mul_le _ (by omega)
  omega

/-- The placement phase establishes the invariant for every input whose
first word fits the grid and whose words are `'_'`-free. -/
theorem cwAux_inv (w0 : List Char) (rest : List (List Char))
    (hlen : w0.length ≤ 15) (hclean : ∀ w ∈ w0 :: rest, '_' ∉ w) :
    CWInv (cwAux (w0 :: rest)) := by
  unfold cwAux
  have hsc := startCol_bounds w0.length hlen
  have hin : ∀ i, i < w0.length →
      InBounds (cellAt 7 (Int.fdiv (15 - (w0.length : Int)) 2) false i).1
        (cellAt 7 (Int.fdiv (15 - (w0.length : Int)) 2) false i).2 := by
    intro i hi
    show InBounds 7 (Int.fdiv (15 - (w0.length : Int)) 2 + (i : Int))
    unfold InBounds
    omega
  have hanchor : InBounds 7 (Int.fdiv (15 - (w0.length : Int)) 2) := by
    unfold InBounds
    omega
  have hseed := place_inv emptyGrid [] w0 7 (Int.fdiv (15 - (w0.length : Int)) 2) false
    emptyGrid_inv (hclean w0 (List.mem_cons_self w0 rest)) hin hanchor
  exact cwFold_inv (rest.take 7) _ hseed
    (fun w hw => hclean w (List.mem_cons_of_mem w0 (List.mem_of_mem_take hw)))

/-- `setCellNumber` succeeds on an in-bounds anchor of a 15×15 display grid
and changes no cell's `letter` or `isBlack` field. -/
theorem setCellNumber_ok (dg : List (List CWCell)) (r c : Int) (n : Nat)
    (hdg : dg.length = 15) (hrows : ∀ row ∈ dg, row.length = 15)
    (hrc : InBounds r c) :
    ∃ dg', setCellNumber dg r c n = Except.ok dg' ∧ dg'.length = 15 ∧
      (∀ row ∈ dg', row.length = 15) ∧
      ∀ i j : Nat,
        ((dg'.getD i []).getD j cwDefaultCell).letter =
          ((dg.getD i []).getD j cwDefaultCell).letter ∧
        ((dg'.getD i []).getD j cwDefaultCell).isBlack =
          ((dg.getD i []).getD j cwDefaultCell).isBlack := by
  obtain ⟨hr0, hr15, hc0, hc15⟩ := hrc
  have hrlen : r.toNat < dg.length := by omega
  have hrowmem : dg.getD r.toNat [] ∈ dg := by
    rw [List.getD_eq_getElem dg [] hrlen]
    exact List.getElem_mem hrlen
  have hrowlen : (dg.getD r.toNat []).length = 15 := hrows _ hrowmem
  have hclen : c.toNat < (dg.getD r.toNat []).length := by omega
  unfold setCellNumber
  rw [if_pos (by omega : 0 ≤ r ∧ r < (dg.length : Int))]
  rw [if_pos (by omega : 0 ≤ c ∧ c < ((dg.getD r.toNat []).length : Int))]
  refine ⟨_, rfl, ?_, ?_, ?_⟩
  · rw [List.length_set]; exact hdg
  · intro row hmem
    rcases List.mem_or_eq_of_mem_set hmem with h | h
    · exact hrows row h
    · rw [h, List.length_set]; exact hrowlen
  · intro i j
    have hclen2 : c.toNat < (dg[r.toNat]?.getD []).length := by
      rw [← List.getD_eq_getElem?_getD]
      exact hclen
    constructor <;>
    · simp only [List.getD_eq_getElem?_getD, List.getElem?_set]
      by_cases hi : r.toNat = i
      · subst hi
        simp only [eq_self_iff_true, if_true, hrlen, Option.getD_some, List.getElem?_set]
        by_cases hj : c.toNat = j
        · subst hj
          simp only [eq_self_iff_true, if_true, hclen2, Option.getD_some]
        · rw [if_neg hj]
      · rw [if_neg hi]

/-- The numbering loop succeeds on a 15×15 display grid whose placed words
have in-bounds anchors, preserving shape and every cell's `letter` and
`isBlack`. -/
theorem numberFold_ok (placed : List CWPlaced)
    (hanchors : ∀ pw ∈ placed, InBounds pw.row pw.col) :
    ∀ (dg : List (List CWCell)) (across down : List ClueEntry) (n : Nat),
      dg.length = 15 → (∀ row ∈ dg, row.length = 15) →
      ∃ dg' across' down' n',
        placed.foldl numStep (Except.ok (dg, across, down, n)) =
          Except.ok (dg', across', down', n') ∧
        dg'.length = 15 ∧ (∀ row ∈ dg', row.length = 15) ∧
        ∀ i j : Nat,
          ((dg'.getD i []).getD j cwDefaultCell).letter =
            ((dg.getD i []).getD j cwDefaultCell).letter ∧
          ((dg'.getD i []).getD j cwDefaultCell).isBlack =
            ((dg.getD i []).getD j cwDefaultCell).isBlack := by
  induction placed with
  | nil =>
    intro dg across down n hdg hrows
    exact ⟨dg, across, down, n, rfl, hdg, hrows, fun i j => ⟨rfl, rfl⟩⟩
  | cons pw rest ih =>
    intro dg across down n hdg hrows
    obtain ⟨dg1, hok, hdg1, hrows1, hpres1⟩ :=
      setCellNumber_ok dg pw.row pw.col n hdg hrows
        (hanchors pw (List.mem_cons_self pw rest))
    have hanchors' : ∀ p ∈ rest, InBounds p.row p.col :=
      fun p hp => hanchors p (List.mem_cons_of_mem pw hp)
    rw [List.foldl_cons]
    cases hv : pw.vertical with
    | true =>
      have hstep : numStep (Except.ok (dg, across, down, n)) pw =
          Except.ok (dg1, across, down ++ [⟨n, getClue pw.text⟩], n + 1) := by
        simp [numStep, hok, hv, Bind.bind, Except.bind, Functor.map, Except.map, Pure.pure, Except.pure]
      rw [hstep]
      obtain ⟨dg', a', d', n', hfold, hl, hr, hp⟩ :=
        ih hanchors' dg1 across (down ++ [⟨n, getClue pw.text⟩]) (n + 1) hdg1 hrows1
      exact ⟨dg', a', d', n', hfold, hl, hr, fun i j =>
        ⟨(hp i j).1.trans (hpres1 i j).1, (hp i j).2.trans (hpres1 i j).2⟩⟩
    | false =>
      have hstep : numStep (Except.ok (dg, across, down, n)) pw =
          Except.ok (dg1, across ++ [⟨n, getClue pw.text⟩], down, n + 1) := by
        simp [numStep, hok, hv, Bind.bind, Except.bind, Functor.map, Except.map, Pure.pure, Except.pure]
      rw [hstep]
      obtain ⟨dg', a', d', n', hfold, hl, hr, hp⟩ :=
        ih hanchors' dg1 (across ++ [⟨n, getClue pw.text⟩]) down (n + 1) hdg1 hrows1
      exact ⟨dg', a', d', n', hfold, hl, hr, fun i j =>
        ⟨(hp i j).1.trans (hpres1 i j).1, (hp i j).2.trans (hpres1 i j).2⟩⟩

/-- The display conversion yields 15 rows. -/
theorem toDisplay_length (g : CWGrid) : (toDisplay g).length = 15 := by
  simp [toDisplay]

/-- Every row of the display conversion has 15 cells. -/
theorem toDisplay_rows (g : CWGrid) : ∀ row ∈ toDisplay g, row.length = 15 := by
  intro row hrow
  obtain ⟨r, _, hmap⟩ := List.mem_map.mp hrow
  rw [← hmap]
  simp

/-- The display conversion maps the raw grid pointwise. -/
theorem toDisplay_getD (g : CWGrid) (r c : Nat) (hr : r < 15) (hc : c < 15) :
    ((toDisplay g).getD r []).getD c cwDefaultCell =
      mkDisplayCell (g (r : Int) (c : Int)) := by
  unfold toDisplay
  have h1 : ((List.range 15).map fun r : Nat => (List.range 15).map fun c : Nat =>
      mkDisplayCell (g (r : Int) (c : Int))).getD r [] =
      (List.range 15).map fun c : Nat => mkDisplayCell (g (r : Int) (c : Int)) := by
    rw [List.getD_eq_getElem _ _ (by simpa using hr)]
    rw [List.getElem_map, List.getElem_range]
  rw [h1]
  rw [List.getD_eq_getElem _ _ (by simpa using hc)]
  rw [List.getElem_map, List.getElem_range]

/-! ### Claims about the crossword generator -/

/-- C4: `generateCrossword` applied to an empty word list returns exactly
`{grid: [], across: [], down: []}` and never throws (the result is `ok`,
not an error). -/
theorem C4_empty_word_list :
    generateCrossword [] = Except.ok ⟨[], [], []⟩ := rfl

/-- C7: `generateCrossword(["NOAH"])` places NOAH horizontally, centered —
anchored at row `floor(15/2) = 7`, column `floor((15-4)/2) = 5` — and
returns exactly one across clue, numbered 1, zero down clues, a 15-row
grid carrying the letters N, O, A, H at row 7, columns 5–8, and the clue
number 1 at the anchor cell. -/
theorem C7_noah_centered :
    (cwAux ["NOAH".toList]).placed = [⟨"NOAH".toList, 7, 5, false⟩] ∧
    ((generateCrossword ["NOAH".toList]).toOption.map fun res => res.across) =
      some [⟨1, getClue "NOAH".toList⟩] ∧
    ((generateCrossword ["NOAH".toList]).toOption.map fun res => res.down) =
      some [] ∧
    ((generateCrossword ["NOAH".toList]).toOption.map fun res => res.grid.length) =
      some 15 ∧
    ((generateCrossword ["NOAH".toList]).toOption.map fun res =>
        ((res.grid.getD 7 []).map CWCell.letter).drop 5 |>.take 4) =
      some [some 'N', some 'O', some 'A', some 'H'] ∧
    ((generateCrossword ["NOAH".toList]).toOption.map fun res =>
        ((res.grid.getD 7 []).getD 5 cwDefaultCell).hasNumber) =
      some true ∧
    ((generateCrossword ["NOAH".toList]).toOption.map fun res =>
        ((res.grid.getD 7 []).getD 5 cwDefaultCell).number) =
      some (some 1) := by
  refine ⟨by decide, by decide, by decide, by decide, by decide, by decide, by decide⟩

/-- C9: for every non-empty word list whose first word has at most 15
letters and whose words contain no `'_'`, `generateCrossword` returns
(without throwing) a grid of exactly 15 rows of exactly 15 cells, and a
cell has `isBlack = true` iff its letter field is empty (`none`), which
holds exactly when no placed word covers that position. -/
theorem C9_grid_shape_black_iff (words : List (List Char)) (w0 : List Char)
    (rest : List (List Char)) (hw : words = w0 :: rest) (hlen : w0.length ≤ 15)
    (hclean : ∀ w ∈ words, '_' ∉ w) :
    ∃ res, generateCrossword words = Except.ok res ∧
      res.grid.length = 15 ∧ (∀ row ∈ res.grid, row.length = 15) ∧
      ∀ r, r < 15 → ∀ c, c < 15 →
        ((cellOf res r c).isBlack = true ↔ (cellOf res r c).letter = none) ∧
        ((cellOf res r c).isBlack = true ↔
          ¬ ∃ pw ∈ (cwAux words).placed, ((r : Int), (c : Int)) ∈ pwCells pw) := by
  subst hw
  have hInv := cwAux_inv w0 rest hlen hclean
  obtain ⟨dg', a', d', n', hfold, hlen', hrows', hpres⟩ :=
    numberFold_ok (cwAux (w0 :: rest)).placed hInv.anchors
      (toDisplay (cwAux (w0 :: rest)).grid) [] [] 1 (toDisplay_length _) (toDisplay_rows _)
  refine ⟨CWResult.mk dg' a' d', ?_, hlen', hrows', ?_⟩
  · unfold generateCrossword numberClues
    rw [if_neg (by simp : ¬(w0 :: rest = []))]
    simp only [hfold]
  · intro r hr c hc
    have hib : InBounds (r : Int) (c : Int) := by
      unfold InBounds
      omega
    obtain ⟨ch, hch⟩ :=
      Option.isSome_iff_exists.mp ((hInv.dom (r : Int) (c : Int)).mpr hib)
    have hl : (cellOf ⟨dg', a', d'⟩ r c).letter =
        (mkDisplayCell ((cwAux (w0 :: rest)).grid (r : Int) (c : Int))).letter := by
      show ((dg'.getD r []).getD c cwDefaultCell).letter = _
      rw [(hpres r c).1, toDisplay_getD _ r c hr hc]
    have hb : (cellOf ⟨dg', a', d'⟩ r c).isBlack =
        (mkDisplayCell ((cwAux (w0 :: rest)).grid (r : Int) (c : Int))).isBlack := by
      show ((dg'.getD r []).getD c cwDefaultCell).isBlack = _
      rw [(hpres r c).2, toDisplay_getD _ r c hr hc]
    have hocc := hInv.occ (r : Int) (c : Int) hib
    rw [hch] at hl hb hocc
    simp only [mkDisplayCell, Option.getD_some] at hl hb
    constructor
    · rw [hl, hb]
      by_cases hu : ch = '_' <;> simp [hu]
    · rw [hb]
      simp only [decide_eq_true_eq]
      constructor
      · intro h0 hex
        exact (hocc.mpr hex) (by rw [h0])
      · intro h0
        by_contra hne
        exact h0 (hocc.mp fun heq => hne (Option.some.inj heq))

/-- Witness for `C9_grid_shape_black_iff` at the concrete input
`cwWords4`. -/
theorem C9_grid_shape_black_iff_witness :
    cwWords4 = "GOD".toList :: ["GAX", "DBY", "XCY"].map String.toList ∧
    "GOD".toList.length ≤ 15 ∧
    (∀ w ∈ cwWords4, '_' ∉ w) ∧
    ∃ res, generateCrossword cwWords4 = Except.ok res ∧
      res.grid.length = 15 ∧ (∀ row ∈ res.grid, row.length = 15) ∧
      ∀ r, r < 15 → ∀ c, c < 15 →
        ((cellOf res r c).isBlack = true ↔ (cellOf res r c).letter = none) ∧
        ((cellOf res r c).isBlack = true ↔
          ¬ ∃ pw ∈ (cwAux cwWords4).placed, ((r : Int), (c : Int)) ∈ pwCells pw) :=
  ⟨by decide, by decide, by decide,
   C9_grid_shape_black_iff cwWords4 "GOD".toList (["GAX", "DBY", "XCY"].map String.toList)
     (by decide) (by decide) (by decide)⟩

/-- C3 counterexample: on input `["GOD", "GAX", "DBY", "XCY"]` the fourth
word "XCY" is accepted at row 9, column 6, horizontally, although two of
its cells — `(9,6)` and `(9,8)` — were already occupied (by "GAX" and
"DBY" respectively), refuting the claim that at most one cell of an
accepted placement coincides with a previously occupied cell. -/
theorem C3_counterexample :
    (cwAux cwWords3).placed =
      [⟨"GOD".toList, 7, 6, false⟩, ⟨"GAX".toList, 7, 6, true⟩,
       ⟨"DBY".toList, 7, 8, true⟩] ∧
    tryPlaceCW (cwAux cwWords3).grid (cwAux cwWords3).placed "XCY".toList =
      some (9, 6, false) ∧
    (cwAux cwWords4).placed =
      (cwAux cwWords3).placed ++ [⟨"XCY".toList, 9, 6, false⟩] ∧
    (cwAux cwWords3).grid 9 6 = some 'X' ∧
    (cwAux cwWords3).grid 9 8 = some 'Y' ∧
    (9, 6) ∈ pwCells ⟨"XCY".toList, 9, 6, false⟩ ∧
    (9, 8) ∈ pwCells ⟨"XCY".toList, 9, 6, false⟩ ∧
    ((9, 6) : Int × Int) ≠ (9, 8) := by
  refine ⟨by decide, by decide, by decide, by decide, by decide, by decide, by decide, by decide⟩

/-- C3 as amended: every placement `generateCrossword` accepts (an anchor
returned by `tryPlaceCW`, which is how every word after the first is
placed) may share any number of cells with previously placed words, but
each shared (already occupied) cell holds exactly the letter the new word
places there; `canPlaceWord` rejects any candidate for which some occupied
cell differs from the candidate's letter. -/
theorem C3_shared_cells_match (g : CWGrid) (placed : List CWPlaced) (w : List Char)
    (r c : Int) (v : Bool) (h : tryPlaceCW g placed w = some (r, c, v)) :
    canPlaceWord g w r c v = true ∧
    ∀ i, i < w.length →
      g (cellAt r c v i).1 (cellAt r c v i).2 ≠ some '_' →
      g (cellAt r c v i).1 (cellAt r c v i).2 = some (letterAt w i) := by
  have hcp := tryPlaceCW_canPlace g placed w (r, c, v) h
  exact ⟨hcp, fun i hi hocc => canPlaceWord_occupied_matches g w r c v hcp i hi hocc⟩

/-- Witness for `C3_shared_cells_match` at the concrete double-intersection
input: the accepted anchor `(9, 6, horizontal)` for "XCY". -/
theorem C3_shared_cells_match_witness :
    tryPlaceCW (cwAux cwWords3).grid (cwAux cwWords3).placed "XCY".toList =
      some (9, 6, false) ∧
    (canPlaceWord (cwAux cwWords3).grid "XCY".toList 9 6 false = true ∧
     ∀ i, i < "XCY".toList.length →
       (cwAux cwWords3).grid (cellAt 9 6 false i).1 (cellAt 9 6 false i).2 ≠ some '_' →
       (cwAux cwWords3).grid (cellAt 9 6 false i).1 (cellAt 9 6 false i).2 =
         some (letterAt "XCY".toList i)) :=
  ⟨by decide, C3_shared_cells_match (cwAux cwWords3).grid (cwAux cwWords3).placed
    "XCY".toList 9 6 false (by decide)⟩

end CW

namespace WS

/-! ### Lemmas about the word-search placement -/

/-- Distinct letter indices of an attempt occupy distinct cells. -/
theorem wsCellAt_injective (dir : Nat) (x y : Int) (j k : Nat)
    (h : wsCellAt dir x y j = wsCellAt dir x y k) : j = k := by
  unfold wsCellAt at h
  split_ifs at h <;> (rw [Prod.mk.injEq] at h; omega)

/-- A cell occupied by no letter index below `n` is untouched by the first
`n` writes of `wsWrite`. -/
theorem wsFoldWrite_not_mem (g : WSGrid) (w : List Char) (dir : Nat) (x y : Int)
    (q : Int × Int) (n : Nat) (hq : ∀ i, i < n → wsCellAt dir x y i ≠ q) :
    ((List.range n).foldl (fun g' i =>
        wsWriteCell g' (wsCellAt dir x y i).1 (wsCellAt dir x y i).2 (letterAt w i)) g)
      q.2 q.1 = g q.2 q.1 := by
  induction n with
  | zero => simp
  | succ n ih =>
    rw [List.range_succ, List.foldl_append, List.foldl_cons, List.foldl_nil]
    show wsWriteCell _ _ _ _ q.2 q.1 = _
    rw [wsWriteCell]
    rw [if_neg, ih (fun i hi => hq i (Nat.lt_succ_of_lt hi))]
    intro hc
    exact hq n (Nat.lt_succ_self n) (Prod.ext hc.1.symm hc.2.symm)

/-- After the first `n` writes of `wsWrite`, the cell of letter index
`i < n` holds the word's letter `i`. -/
theorem wsFoldWrite_mem (g : WSGrid) (w : List Char) (dir : Nat) (x y : Int)
    (n i : Nat) (hi : i < n) :
    ((List.range n).foldl (fun g' i =>
        wsWriteCell g' (wsCellAt dir x y i).1 (wsCellAt dir x y i).2 (letterAt w i)) g)
      (wsCellAt dir x y i).2 (wsCellAt dir x y i).1 = some (letterAt w i) := by
  induction n with
  | zero => omega
  | succ n ih =>
    rw [List.range_succ, List.foldl_append, List.foldl_cons, List.foldl_nil]
    show wsWriteCell _ _ _ _ _ _ = _
    rw [wsWriteCell]
    by_cases hin : i = n
    · subst hin; rw [if_pos ⟨rfl, rfl⟩]
    · have hlt : i < n := by omega
      rw [if_neg, ih hlt]
      intro hc
      exact hin (wsCellAt_injective dir x y i n (Prod.ext hc.1 hc.2))

/-- `wsWrite` leaves cells the word does not occupy unchanged. -/
theorem wsWrite_apply_not_mem (g : WSGrid) (w : List Char) (dir : Nat) (x y : Int)
    (q : Int × Int) (hq : ∀ i, i < w.length → wsCellAt dir x y i ≠ q) :
    wsWrite g w dir x y q.2 q.1 = g q.2 q.1 :=
  wsFoldWrite_not_mem g w dir x y q w.length hq

/-- `wsWrite` stores letter `i` at the cell of index `i`. -/
theorem wsWrite_apply_mem (g : WSGrid) (w : List Char) (dir : Nat) (x y : Int)
    (i : Nat) (hi : i < w.length) :
    wsWrite g w dir x y (wsCellAt dir x y i).2 (wsCellAt dir x y i).1 =
      some (letterAt w i) :=
  wsFoldWrite_mem g w dir x y w.length i hi

/-- The path of an accepted attempt has one cell per letter. -/
theorem wsCells_length (dir : Nat) (x y : Int) (len : Nat) :
    (wsCells dir x y len).length = len := by
  simp [wsCells]

/-- Reading the path of an accepted attempt. -/
theorem wsCells_getD (dir : Nat) (x y : Int) (len k : Nat) (hk : k < len) :
    (wsCells dir x y len).getD k (0, 0) = wsCellAt dir x y k := by
  unfold wsCells
  rw [List.getD_eq_getElem _ _ (by simpa using hk)]
  rw [List.getElem_map, List.getElem_range]

/-- If the conflict check passes, every cell of the attempt lying on a
placed word's path already holds exactly the attempt's letter there. -/
theorem wsCanPlace_conflict_matches (g : WSGrid) (placed : List PlacedWord)
    (w : List Char) (dir : Nat) (x y : Int)
    (h : wsCanPlace g placed w dir x y = true) (i : Nat) (hi : i < w.length)
    (pw : PlacedWord) (hpw : pw ∈ placed) (hmem : wsCellAt dir x y i ∈ pw.path) :
    g (wsCellAt dir x y i).2 (wsCellAt dir x y i).1 = some (letterAt w i) := by
  have hbody := List.all_eq_true.mp h i (List.mem_range.mpr hi)
  have hconf : (placed.any fun pw => pw.path.any fun pt =>
      decide (pt = wsCellAt dir x y i)) = true := by
    rw [List.any_eq_true]
    refine ⟨pw, hpw, ?_⟩
    rw [List.any_eq_true]
    exact ⟨_, hmem, by simp⟩
  rw [hconf] at hbody
  simpa using hbody

/-- A rejected attempt modifies neither the grid nor the placed list. -/
theorem wsAttemptOnce_rejected_frame (rng : Nat → Nat) (w : List Char) (s : WSState)
    (h : (wsAttemptOnce rng w s).2 = false) :
    (wsAttemptOnce rng w s).1.grid = s.grid ∧
    (wsAttemptOnce rng w s).1.placed = s.placed := by
  unfold wsAttemptOnce at h ⊢
  by_cases hc : wsCanPlace s.grid s.placed w (wsAttemptDir rng s)
      (wsAttemptX rng w s) (wsAttemptY rng w s) = true
  · rw [if_pos hc] at h
    exact absurd h (by simp)
  · rw [if_neg hc]
    exact ⟨rfl, rfl⟩

/-- One attempt preserves the letters-along-paths invariant. -/
theorem wsAttemptOnce_inv (rng : Nat → Nat) (w : List Char) (s : WSState)
    (hInv : WSInv s) : WSInv (wsAttemptOnce rng w s).1 := by
  unfold wsAttemptOnce
  by_cases hc : wsCanPlace s.grid s.placed w (wsAttemptDir rng s)
      (wsAttemptX rng w s) (wsAttemptY rng w s) = true
  case neg =>
    rw [if_neg hc]
    exact hInv
  case pos =>
    rw [if_pos hc]
    intro pw hpw
    rcases List.mem_append.mp hpw with hold | hnew
    · obtain ⟨hlen, hvals⟩ := hInv pw hold
      refine ⟨hlen, ?_⟩
      intro k hk
      show wsWrite s.grid w (wsAttemptDir rng s) (wsAttemptX rng w s) (wsAttemptY rng w s)
        (pw.path.getD k (0, 0)).2 (pw.path.getD k (0, 0)).1 = some (letterAt pw.word k)
      by_cases hmem : ∃ i, i < w.length ∧
          wsCellAt (wsAttemptDir rng s) (wsAttemptX rng w s) (wsAttemptY rng w s) i =
            pw.path.getD k (0, 0)
      · obtain ⟨i, hi, hci⟩ := hmem
        have hw1 : wsWrite s.grid w (wsAttemptDir rng s) (wsAttemptX rng w s)
            (wsAttemptY rng w s) (pw.path.getD k (0, 0)).2 (pw.path.getD k (0, 0)).1 =
            some (letterAt w i) := by
          have h0 := wsWrite_apply_mem s.grid w (wsAttemptDir rng s) (wsAttemptX rng w s)
            (wsAttemptY rng w s) i hi
          rw [hci] at h0
          exact h0
        have hqin : pw.path.getD k (0, 0) ∈ pw.path := by
          have hk' : k < pw.path.length := by omega
          rw [List.getD_eq_getElem _ _ hk']
          exact List.getElem_mem hk'
        have hmatch := wsCanPlace_conflict_matches s.grid s.placed w (wsAttemptDir rng s)
          (wsAttemptX rng w s) (wsAttemptY rng w s) hc i hi pw hold (hci ▸ hqin)
        rw [hci] at hmatch
        have hold0 := hvals k hk
        rw [hmatch] at hold0
        rw [hw1]
        exact hold0
      · push_neg at hmem
        rw [wsWrite_apply_not_mem s.grid w _ _ _ (pw.path.getD k (0, 0))
          (fun i hi => hmem i hi)]
        exact hvals k hk
    · rw [List.mem_singleton.mp hnew]
      refine ⟨by simp [wsCells], ?_⟩
      intro k hk
      show wsWrite s.grid w (wsAttemptDir rng s) (wsAttemptX rng w s) (wsAttemptY rng w s)
        ((wsCells (wsAttemptDir rng s) (wsAttemptX rng w s) (wsAttemptY rng w s)
          w.length).getD k (0, 0)).2
        ((wsCells (wsAttemptDir rng s) (wsAttemptX rng w s) (wsAttemptY rng w s)
          w.length).getD k (0, 0)).1 = some (letterAt w k)
      rw [wsCells_getD _ _ _ _ k hk]
      exact wsWrite_apply_mem s.grid w _ _ _ k hk

/-- The retry loop preserves the invariant. -/
theorem wsAttemptLoop_inv (rng : Nat → Nat) (w : List Char) :
    ∀ n s, WSInv s → WSInv (wsAttemptLoop rng w n s) := by
  intro n
  induction n with
  | zero => intro s h; exact h
  | succ n ih =>
    intro s h
    unfold wsAttemptLoop
    have h1 := wsAttemptOnce_inv rng w s h
    cases hstep : wsAttemptOnce rng w s with
    | mk s' b =>
      rw [hstep] at h1
      cases b with
      | true => exact h1
      | false => exact ih s' h1

/-- Processing one word preserves the invariant. -/
theorem wsStep_inv (rng : Nat → Nat) (s : WSState) (w : List Char)
    (h : WSInv s) : WSInv (wsStep rng s w) := by
  unfold wsStep
  show WSInv (if 20 < (normalize w).length then s
    else wsAttemptLoop rng (normalize w) 50 s)
  split
  · exact h
  · exact wsAttemptLoop_inv rng (normalize w) 50 s h

/-- The invariant holds of the all-filler initial state. -/
theorem wsInitState_inv (rng : Nat → Nat) : WSInv (initState rng) := by
  intro pw hpw
  simp [initState] at hpw

/-- The invariant holds of the final state of `generateWordSearch`. -/
theorem generateWordSearch_inv (words : List (List Char)) (rng : Nat → Nat) :
    WSInv (generateWordSearch words rng) := by
  unfold generateWordSearch
  have hgen : ∀ (ws : List (List Char)) (s : WSState), WSInv s →
      WSInv (ws.foldl (wsStep rng) s) := by
    intro ws
    induction ws with
    | nil => intro s h; exact h
    | cons w ws ih =>
      intro s h
      rw [List.foldl_cons]
      exact ih (wsStep rng s w) (wsStep_inv rng s w h)
  exact hgen words (initState rng) (wsInitState_inv rng)

/-! ### Claims about the word-search generator -/

/-- C2 at the failing input: with `wsRng2`, the single attempt for "AB"
draws direction 3 (diagonal down-left) with anchor `(0, 0)`; its second
cell is `(-1, 1)`, outside the 20×20 grid — the x-anchor range of
direction 3 is not shortened by the word length, so the attempt indexes
(and, being accepted, even writes) a cell outside the grid, contradicting
the claim that every attempt stays fully in bounds. -/
theorem C2_direction3_out_of_bounds :
    (generateWordSearch wsWords2 wsRng2).attempts = [⟨['A', 'B'], 3, 0, 0⟩] ∧
    wsCells 3 0 0 2 = [(0, 0), (-1, 1)] ∧
    (generateWordSearch wsWords2 wsRng2).placed = [⟨['A', 'B'], [(0, 0), (-1, 1)]⟩] ∧
    ¬(0 ≤ (-1 : Int) ∧ (-1 : Int) < 20) := by
  refine ⟨by decide, by decide, by decide, by decide⟩

/-- C6: after `generateWordSearch` completes, any two placed words sharing
a path cell agree there: the grid letter at the shared cell equals both
words' letters at their corresponding positions. -/
theorem C6_overlap_letters_agree (words : List (List Char)) (rng : Nat → Nat)
    (w1 w2 : PlacedWord)
    (h1 : w1 ∈ (generateWordSearch words rng).placed)
    (h2 : w2 ∈ (generateWordSearch words rng).placed)
    (i j : Nat) (hi : i < w1.path.length) (hj : j < w2.path.length)
    (hshare : w1.path.getD i (0, 0) = w2.path.getD j (0, 0)) :
    (generateWordSearch words rng).grid (w1.path.getD i (0, 0)).2
        (w1.path.getD i (0, 0)).1 = some (letterAt w1.word i) ∧
    (generateWordSearch words rng).grid (w1.path.getD i (0, 0)).2
        (w1.path.getD i (0, 0)).1 = some (letterAt w2.word j) ∧
    letterAt w1.word i = letterAt w2.word j := by
  have hInv := generateWordSearch_inv words rng
  obtain ⟨hl1, hv1⟩ := hInv w1 h1
  obtain ⟨hl2, hv2⟩ := hInv w2 h2
  have e1 := hv1 i (by omega)
  have e2 := hv2 j (by omega)
  rw [← hshare] at e2
  refine ⟨e1, e2, ?_⟩
  have := e1.symm.trans e2
  exact Option.some.inj this

/-- Witness for `C6_overlap_letters_agree`: the concrete run `wsWords6` /
`wsRng6` places "AA" horizontally and "AC" vertically, sharing cell
`(0, 0)` with the letter A. -/
theorem C6_overlap_letters_agree_witness :
    (⟨['A', 'A'], [(0, 0), (1, 0)]⟩ : PlacedWord) ∈
      (generateWordSearch wsWords6 wsRng6).placed ∧
    (⟨['A', 'C'], [(0, 0), (0, 1)]⟩ : PlacedWord) ∈
      (generateWordSearch wsWords6 wsRng6).placed ∧
    ((generateWordSearch wsWords6 wsRng6).grid 0 0 = some (letterAt ['A', 'A'] 0) ∧
     (generateWordSearch wsWords6 wsRng6).grid 0 0 = some (letterAt ['A', 'C'] 0) ∧
     letterAt ['A', 'A'] 0 = letterAt ['A', 'C'] 0) :=
  ⟨by decide, by decide,
   C6_overlap_letters_agree wsWords6 wsRng6
     ⟨['A', 'A'], [(0, 0), (1, 0)]⟩ ⟨['A', 'C'], [(0, 0), (0, 1)]⟩
     (by decide) (by decide) 0 0 (by decide) (by decide) (by decide)⟩

/-- C10: a rejected placement attempt performs no writes — the letter grid
and the placed-word list are exactly as they were before the attempt;
only an accepted attempt mutates them. -/
theorem C10_rejected_attempt_no_writes (rng : Nat → Nat) (w : List Char) (s : WSState)
    (h : (wsAttemptOnce rng w s).2 = false) :
    (wsAttemptOnce rng w s).1.grid = s.grid ∧
    (wsAttemptOnce rng w s).1.placed = s.placed :=
  wsAttemptOnce_rejected_frame rng w s h

/-- Witness for `C10_rejected_attempt_no_writes`: a state whose grid holds
B everywhere and already contains a placed word through `(0, 0)` rejects
the attempt for "AA" (letter mismatch at the conflict cell). -/
theorem C10_rejected_attempt_no_writes_witness :
    (wsAttemptOnce (fun _ => 0) ['A', 'A']
      ⟨fun _ _ => some 'B', [⟨['B', 'B'], [(0, 0), (1, 0)]⟩], 0, []⟩).2 = false ∧
    ((wsAttemptOnce (fun _ => 0) ['A', 'A']
       ⟨fun _ _ => some 'B', [⟨['B', 'B'], [(0, 0), (1, 0)]⟩], 0, []⟩).1.grid =
      (⟨fun _ _ => some 'B', [⟨['B', 'B'], [(0, 0), (1, 0)]⟩], 0, []⟩ : WSState).grid ∧
     (wsAttemptOnce (fun _ => 0) ['A', 'A']
       ⟨fun _ _ => some 'B', [⟨['B', 'B'], [(0, 0), (1, 0)]⟩], 0, []⟩).1.placed =
      (⟨fun _ _ => some 'B', [⟨['B', 'B'], [(0, 0), (1, 0)]⟩], 0, []⟩ : WSState).placed) :=
  ⟨by decide,
   C10_rejected_attempt_no_writes (fun _ => 0) ['A', 'A']
     ⟨fun _ _ => some 'B', [⟨['B', 'B'], [(0, 0), (1, 0)]⟩], 0, []⟩ (by decide)⟩

end WS
namespace Maze

/-! ### Basic lemmas about the maze grid operations -/

/-- Positions are equal iff their coordinates are. -/
theorem posEq (p q : Pos) : p = q ↔ p.x = q.x ∧ p.y = q.y := by
  cases p
  cases q
  simp

/-- Reading the updated cell. -/
theorem updateCell_same (g : MGrid) (y x : Nat) (f : Cell → Cell) :
    updateCell g y x f y x = f (g y x) := by
  simp [updateCell]

/-- Reading any other cell. -/
theorem updateCell_other (g : MGrid) (y x : Nat) (f : Cell → Cell) (y' x' : Nat)
    (h : ¬(y' = y ∧ x' = x)) : updateCell g y x f y' x' = g y' x' := by
  simp [updateCell, h]

/-- Carving changes no `visited` flag. -/
theorem carve_visited (g : MGrid) (cur next : Pos) (d : Dir) (y x : Nat) :
    ((carve g cur next d) y x).visited = (g y x).visited := by
  cases d <;> simp only [carve, updateCell] <;> split_ifs <;> simp_all

/-- The `visited` flags after a forward step: exactly the old ones plus the
chosen neighbor. -/
theorem stepGrid_visited (g : MGrid) (cur next : Pos) (d : Dir) (y x : Nat) :
    ((updateCell (carve g cur next d) next.y next.x fun c => { c with visited := true })
        y x).visited = true ↔
      ((g y x).visited = true ∨ (y = next.y ∧ x = next.x)) := by
  unfold updateCell
  by_cases h : y = next.y ∧ x = next.x
  · rw [if_pos h]
    simp [h]
  · rw [if_neg h]
    rw [carve_visited]
    simp [h]

/-- `wallsMono` is reflexive. -/
theorem wallsMono_refl (g : MGrid) : wallsMono g g :=
  fun _ _ => ⟨id, id, id, id⟩

/-- `wallsMono` is transitive. -/
theorem wallsMono_trans {g g' g'' : MGrid} (h1 : wallsMono g g') (h2 : wallsMono g' g'') :
    wallsMono g g'' := by
  intro y x
  obtain ⟨a1, b1, c1, d1⟩ := h1 y x
  obtain ⟨a2, b2, c2, d2⟩ := h2 y x
  exact ⟨fun h => a2 (a1 h), fun h => b2 (b1 h), fun h => c2 (c1 h), fun h => d2 (d1 h)⟩

/-- Marking a cell visited removes no wall. -/
theorem wallsMono_update_visited (g : MGrid) (y x : Nat) :
    wallsMono g (updateCell g y x fun c => { c with visited := true }) := by
  intro y' x'
  unfold updateCell
  split_ifs with h
  · obtain ⟨hy, hx⟩ := h
    subst hy
    subst hx
    exact ⟨fun h => h, fun h => h, fun h => h, fun h => h⟩
  · exact ⟨id, id, id, id⟩

/-- Carving only removes walls. -/
theorem wallsMono_carve (g : MGrid) (cur next : Pos) (d : Dir) :
    wallsMono g (carve g cur next d) := by
  intro y x
  cases d <;> simp only [carve, updateCell] <;> split_ifs <;>
    refine ⟨fun h => ?_, fun h => ?_, fun h => ?_, fun h => ?_⟩ <;> simp_all

/-- Opening the entrance and exit only removes walls. -/
theorem wallsMono_openEnds (cols rows : Nat) (g : MGrid) :
    wallsMono g (openEnds cols rows g) := by
  intro y x
  simp only [openEnds, updateCell]
  split_ifs <;> refine ⟨fun h => ?_, fun h => ?_, fun h => ?_, fun h => ?_⟩ <;> simp_all

/-- Carved adjacency survives wall removal. -/
theorem carvedAdj_mono (g g' : MGrid) (h : wallsMono g g') (p q : Pos)
    (hadj : carvedAdj g p q) : carvedAdj g' p q := by
  rcases hadj with ⟨h1, h2, h3, h4⟩ | ⟨h1, h2, h3, h4⟩ | ⟨h1, h2, h3, h4⟩ | ⟨h1, h2, h3, h4⟩
  · exact Or.inl ⟨h1, h2, (h p.y p.x).1 h3, (h q.y q.x).2.2.1 h4⟩
  · exact Or.inr (Or.inl ⟨h1, h2, (h p.y p.x).2.1 h3, (h q.y q.x).2.2.2 h4⟩)
  · exact Or.inr (Or.inr (Or.inl ⟨h1, h2, (h p.y p.x).2.2.1 h3, (h q.y q.x).1 h4⟩))
  · exact Or.inr (Or.inr (Or.inr ⟨h1, h2, (h p.y p.x).2.2.2 h3, (h q.y q.x).2.1 h4⟩))

/-- Reachability survives wall removal. -/
theorem Reach_mono (g g' : MGrid) (h : wallsMono g g') {p q : Pos}
    (hr : Reach g p q) : Reach g' p q :=
  Relation.ReflTransGen.mono (fun a b hab => carvedAdj_mono g g' h a b hab) hr

end Maze
namespace Maze

/-- After carving to a grid-adjacent neighbor (and marking it visited),
the two cells are carved-adjacent. -/
theorem carve_adj (g : MGrid) (cur next : Pos) (d : Dir) (hadj : adjOf cur next d) :
    carvedAdj
      (updateCell (carve g cur next d) next.y next.x fun c => { c with visited := true })
      cur next := by
  cases d with
  | top =>
    obtain ⟨hx, hy⟩ := hadj
    have hneq : ¬(cur.y = next.y ∧ cur.x = next.x) := by omega
    refine Or.inl ⟨hx, hy, ?_, ?_⟩
    · rw [updateCell_other _ _ _ _ _ _ hneq]
      show ((updateCell (updateCell g cur.y cur.x fun c => { c with top := false })
        next.y next.x fun c => { c with bottom := false }) cur.y cur.x).top = false
      rw [updateCell_other _ _ _ _ _ _ hneq, updateCell_same]
    · rw [updateCell_same]
      show ((updateCell (updateCell g cur.y cur.x fun c => { c with top := false })
        next.y next.x fun c => { c with bottom := false }) next.y next.x).bottom = false
      rw [updateCell_same]
  | right =>
    obtain ⟨hx, hy⟩ := hadj
    have hneq : ¬(cur.y = next.y ∧ cur.x = next.x) := by omega
    refine Or.inr (Or.inl ⟨hx, hy, ?_, ?_⟩)
    · rw [updateCell_other _ _ _ _ _ _ hneq]
      show ((updateCell (updateCell g cur.y cur.x fun c => { c with right := false })
        next.y next.x fun c => { c with left := false }) cur.y cur.x).right = false
      rw [updateCell_other _ _ _ _ _ _ hneq, updateCell_same]
    · rw [updateCell_same]
      show ((updateCell (updateCell g cur.y cur.x fun c => { c with right := false })
        next.y next.x fun c => { c with left := false }) next.y next.x).left = false
      rw [updateCell_same]
  | bottom =>
    obtain ⟨hx, hy⟩ := hadj
    have hneq : ¬(cur.y = next.y ∧ cur.x = next.x) := by omega
    refine Or.inr (Or.inr (Or.inl ⟨hx, hy, ?_, ?_⟩))
    · rw [updateCell_other _ _ _ _ _ _ hneq]
      show ((updateCell (updateCell g cur.y cur.x fun c => { c with bottom := false })
        next.y next.x fun c => { c with top := false }) cur.y cur.x).bottom = false
      rw [updateCell_other _ _ _ _ _ _ hneq, updateCell_same]
    · rw [updateCell_same]
      show ((updateCell (updateCell g cur.y cur.x fun c => { c with bottom := false })
        next.y next.x fun c => { c with top := false }) next.y next.x).top = false
      rw [updateCell_same]
  | left =>
    obtain ⟨hx, hy⟩ := hadj
    have hneq : ¬(cur.y = next.y ∧ cur.x = next.x) := by omega
    refine Or.inr (Or.inr (Or.inr ⟨hx, hy, ?_, ?_⟩))
    · rw [updateCell_other _ _ _ _ _ _ hneq]
      show ((updateCell (updateCell g cur.y cur.x fun c => { c with left := false })
        next.y next.x fun c => { c with right := false }) cur.y cur.x).left = false
      rw [updateCell_other _ _ _ _ _ _ hneq, updateCell_same]
    · rw [updateCell_same]
      show ((updateCell (updateCell g cur.y cur.x fun c => { c with left := false })
        next.y next.x fun c => { c with right := false }) next.y next.x).right = false
      rw [updateCell_same]

/-- Characterization of the neighbor list's members: each is in the grid
direction of its wall tag, unvisited, and in bounds when the center is. -/
theorem mem_neighbors (cols rows : Nat) (g : MGrid) (p q : Pos) (d : Dir)
    (h : (q, d) ∈ neighbors cols rows g p) :
    (g q.y q.x).visited = false ∧ adjOf p q d ∧
      (bounded cols rows p → bounded cols rows q) := by
  unfold neighbors at h
  simp only [List.mem_append] at h
  rcases h with ((h | h) | h) | h <;> split at h <;>
      simp only [List.mem_singleton, List.not_mem_nil] at h <;>
      rename_i hcond <;>
      obtain ⟨rfl, rfl⟩ := Prod.mk.injEq .. ▸ h
  · exact ⟨hcond.2, ⟨rfl, by have h0 := hcond.1; show p.y - 1 + 1 = p.y; omega⟩,
      fun hb => ⟨hb.1, by have h0 := hb.2; show p.y - 1 < rows; omega⟩⟩
  · exact ⟨hcond.2, ⟨rfl, rfl⟩, fun hb => ⟨hcond.1, hb.2⟩⟩
  · exact ⟨hcond.2, ⟨rfl, rfl⟩, fun hb => ⟨hb.1, hcond.1⟩⟩
  · exact ⟨hcond.2, ⟨by have h0 := hcond.1; show p.x - 1 + 1 = p.x; omega, rfl⟩,
      fun hb => ⟨by have h0 := hb.1; show p.x - 1 < cols; omega, hb.2⟩⟩

/-- An empty neighbor list means all in-bounds grid neighbors are
visited. -/
theorem neighbors_nil_closed (cols rows : Nat) (g : MGrid) (p : Pos)
    (h : neighbors cols rows g p = []) :
    (0 < p.y → (g (p.y - 1) p.x).visited = true) ∧
    (p.x + 1 < cols → (g p.y (p.x + 1)).visited = true) ∧
    (p.y + 1 < rows → (g (p.y + 1) p.x).visited = true) ∧
    (0 < p.x → (g p.y (p.x - 1)).visited = true) := by
  unfold neighbors at h
  simp only [List.append_eq_nil] at h
  obtain ⟨⟨⟨h1, h2⟩, h3⟩, h4⟩ := h
  refine ⟨fun hb => ?_, fun hb => ?_, fun hb => ?_, fun hb => ?_⟩
  · by_contra hv
    rw [if_pos ⟨hb, by simpa using hv⟩] at h1
    exact List.cons_ne_nil _ _ h1
  · by_contra hv
    rw [if_pos ⟨hb, by simpa using hv⟩] at h2
    exact List.cons_ne_nil _ _ h2
  · by_contra hv
    rw [if_pos ⟨hb, by simpa using hv⟩] at h3
    exact List.cons_ne_nil _ _ h3
  · by_contra hv
    rw [if_pos ⟨hb, by simpa using hv⟩] at h4
    exact List.cons_ne_nil _ _ h4

/-- The neighbor list only shrinks as `visited` flags are added. -/
theorem neighbors_mono_nil (cols rows : Nat) (g g' : MGrid) (p : Pos)
    (hvis : ∀ y x, (g y x).visited = true → (g' y x).visited = true)
    (h : neighbors cols rows g p = []) : neighbors cols rows g' p = [] := by
  obtain ⟨c1, c2, c3, c4⟩ := neighbors_nil_closed cols rows g p h
  unfold neighbors
  simp only [List.append_eq_nil]
  refine ⟨⟨⟨?_, ?_⟩, ?_⟩, ?_⟩ <;> rw [if_neg] <;> rintro ⟨hb, hv⟩
  · rw [hvis _ _ (c1 hb)] at hv
    exact Bool.noConfusion hv
  · rw [hvis _ _ (c2 hb)] at hv
    exact Bool.noConfusion hv
  · rw [hvis _ _ (c3 hb)] at hv
    exact Bool.noConfusion hv
  · rw [hvis _ _ (c4 hb)] at hv
    exact Bool.noConfusion hv

end Maze
namespace Maze

/-- `List.count` through a cons, with propositional equality. -/
theorem count_cons_pos (a b : Pos) (l : List Pos) :
    (b :: l).count a = l.count a + (if b = a then 1 else 0) := by
  rw [List.count_cons]
  congr 1
  by_cases h : b = a <;> simp [h]

/-- Marking one in-bounds unvisited cell visited decrements the unvisited
count. -/
theorem unvisitedCount_mark (cols rows : Nat) (g g' : MGrid) (p : Pos)
    (hb : bounded cols rows p) (hnv : (g p.y p.x).visited = false)
    (hg' : ∀ y x, ((g' y x).visited = true) ↔
      ((g y x).visited = true ∨ (y = p.y ∧ x = p.x))) :
    unvisitedCount cols rows g' + 1 = unvisitedCount cols rows g := by
  unfold unvisitedCount
  have hset : ((Finset.range cols ×ˢ Finset.range rows).filter
      fun q => (g' q.2 q.1).visited = false) =
      ((Finset.range cols ×ˢ Finset.range rows).filter
        fun q => (g q.2 q.1).visited = false).erase (p.x, p.y) := by
    ext q
    simp only [Finset.mem_filter, Finset.mem_erase, Finset.mem_product, Finset.mem_range]
    constructor
    · rintro ⟨hq, hv⟩
      have hnot : ¬((g q.2 q.1).visited = true ∨ (q.2 = p.y ∧ q.1 = p.x)) := by
        rw [← hg']
        simp [hv]
      push_neg at hnot
      refine ⟨?_, hq, ?_⟩
      · intro heq
        rw [heq] at hnot
        exact hnot.2 rfl rfl
      · cases hvt : (g q.2 q.1).visited
        · rfl
        · exact absurd hvt hnot.1
    · rintro ⟨hne, hq, hv⟩
      refine ⟨hq, ?_⟩
      cases hvt : (g' q.2 q.1).visited
      · rfl
      · rcases (hg' q.2 q.1).mp hvt with h | ⟨h1, h2⟩
        · rw [h] at hv
          exact Bool.noConfusion hv
        · exact absurd (Prod.ext h2 h1) hne
  rw [hset, Finset.card_erase_of_mem]
  · have hm : (p.x, p.y) ∈ (Finset.range cols ×ˢ Finset.range rows).filter
        (fun q => (g q.2 q.1).visited = false) := by
      simp only [Finset.mem_filter, Finset.mem_product, Finset.mem_range]
      exact ⟨⟨hb.1, hb.2⟩, hnv⟩
    have hcard := Finset.card_pos.mpr ⟨_, hm⟩
    omega
  · simp only [Finset.mem_filter, Finset.mem_product, Finset.mem_range]
    exact ⟨⟨hb.1, hb.2⟩, hnv⟩

/-- All `cols * rows` cells of the fresh grid are unvisited. -/
theorem initGrid_count (cols rows : Nat) :
    unvisitedCount cols rows initGrid = cols * rows := by
  unfold unvisitedCount
  have hall : ∀ q ∈ (Finset.range cols ×ˢ Finset.range rows),
      (initGrid q.2 q.1).visited = false := fun q _ => rfl
  rw [Finset.filter_true_of_mem hall, Finset.card_product]
  simp

/-- After marking the origin, `cols * rows - 1` cells are unvisited. -/
theorem initState_count (cols rows : Nat) (hc : 1 ≤ cols) (hr : 1 ≤ rows) :
    unvisitedCount cols rows (initState cols rows).grid + 1 = cols * rows := by
  have hg' : ∀ y x : Nat, (((initState cols rows).grid y x).visited = true) ↔
      ((initGrid y x).visited = true ∨ (y = 0 ∧ x = 0)) := by
    intro y x
    show ((updateCell initGrid 0 0 fun c => { c with visited := true }) y x).visited = true ↔ _
    unfold updateCell
    by_cases hyx : y = 0 ∧ x = 0
    · rw [if_pos hyx]
      simp [hyx]
    · rw [if_neg hyx]
      simp [initGrid, initCell, hyx]
  have h := unvisitedCount_mark cols rows initGrid (initState cols rows).grid ⟨0, 0⟩
    ⟨hc, hr⟩ rfl hg'
  rw [initGrid_count] at h
  exact h

/-- Only the origin is visited in the initial state. -/
theorem initState_visited_origin (cols rows : Nat) (p : Pos)
    (hv : ((initState cols rows).grid p.y p.x).visited = true) : p = ⟨0, 0⟩ := by
  have hv' : ((updateCell initGrid 0 0 fun c => { c with visited := true })
      p.y p.x).visited = true := hv
  unfold updateCell at hv'
  by_cases hyx : p.y = 0 ∧ p.x = 0
  · exact (posEq _ _).mpr ⟨hyx.2, hyx.1⟩
  · rw [if_neg hyx] at hv'
    exact absurd hv' (by simp [initGrid, initCell])

/-- The loop invariant holds initially. -/
theorem mazeInitState_inv (cols rows : Nat) (hc : 1 ≤ cols) (hr : 1 ≤ rows) :
    MInv cols rows (initState cols rows) := by
  have hocc2 : occ (initState cols rows) ⟨0, 0⟩ = 2 := by
    simp [occ, initState, count_cons_pos]
  constructor
  case curVis => rfl
  case curBnd => exact ⟨hc, hr⟩
  case stackVis =>
    intro p hp
    rw [List.mem_singleton.mp hp]
    exact ⟨rfl, hc, hr⟩
  case originVis => rfl
  case lastOrigin => intro h; rfl

  case emptyCur => intro h; rfl
  case occOne =>
    intro p hb hv hn
    rw [initState_visited_origin cols rows p hv]
    omega
  case occOrigin => exact Or.inl (le_of_eq hocc2.symm)
  case carvesTotal =>
    have := initState_count cols rows hc hr
    show 0 + 1 + _ = _
    omega
  case reach =>
    intro p hb hv
    rw [initState_visited_origin cols rows p hv]
    exact Relation.ReflTransGen.refl

end Maze
namespace Maze

/-- The loop body at a dead end (pop and backtrack). -/
theorem mazeStep_eq_pop (cols rows : Nat) (rng : Nat → Nat) (s : MState)
    (t : Pos) (rest : List Pos) (hst : s.stack = t :: rest)
    (hns : neighbors cols rows s.grid s.cur = []) :
    mazeStep cols rows rng s = { s with stack := rest, cur := t } := by
  unfold mazeStep
  rw [hst]
  show (if neighbors cols rows s.grid s.cur = [] then
      { s with stack := rest, cur := t } else _) = _
  rw [if_pos hns]

/-- The loop body at a cell with an unvisited neighbor (carve and
advance). -/
theorem mazeStep_eq_forward (cols rows : Nat) (rng : Nat → Nat) (s : MState)
    (t : Pos) (rest : List Pos) (hst : s.stack = t :: rest)
    (hns : neighbors cols rows s.grid s.cur ≠ []) :
    mazeStep cols rows rng s =
      { grid := updateCell
          (carve s.grid s.cur (pickOf cols rows rng s).1 (pickOf cols rows rng s).2)
          (pickOf cols rows rng s).1.y (pickOf cols rows rng s).1.x
          fun c => { c with visited := true },
        stack := s.cur :: s.stack,
        cur := (pickOf cols rows rng s).1,
        carves := s.carves + 1,
        rngIdx := s.rngIdx + 1 } := by
  unfold mazeStep
  rw [hst]
  show (if neighbors cols rows s.grid s.cur = [] then
      { s with stack := rest, cur := t } else _) = _
  rw [if_neg hns]

/-- The random pick is one of the unvisited neighbors. -/
theorem pickOf_mem (cols rows : Nat) (rng : Nat → Nat) (s : MState)
    (hns : neighbors cols rows s.grid s.cur ≠ []) :
    pickOf cols rows rng s ∈ neighbors cols rows s.grid s.cur := by
  unfold pickOf
  have hlen : 0 < (neighbors cols rows s.grid s.cur).length := List.length_pos.mpr hns
  have hidx : rng s.rngIdx % (neighbors cols rows s.grid s.cur).length <
      (neighbors cols rows s.grid s.cur).length := Nat.mod_lt _ hlen
  rw [List.getD_eq_getElem _ _ hidx]
  exact List.getElem_mem hidx

end Maze
namespace Maze

/-- The loop body preserves the invariant and strictly decreases the loop
measure whenever the stack is non-empty. -/
theorem mazeStep_preserve (cols rows : Nat) (rng : Nat → Nat) (s : MState)
    (hInv : MInv cols rows s) (hne : s.stack ≠ []) :
    MInv cols rows (mazeStep cols rows rng s) ∧
      loopMeasure cols rows (mazeStep cols rows rng s) < loopMeasure cols rows s := by
  obtain ⟨t, rest, hst⟩ : ∃ t rest, s.stack = t :: rest := by
    cases hs : s.stack with
    | nil => exact absurd hs hne
    | cons a l => exact ⟨a, l, rfl⟩
  by_cases hns : neighbors cols rows s.grid s.cur = []
  · rw [mazeStep_eq_pop cols rows rng s t rest hst hns]
    have htmem : t ∈ s.stack := hst ▸ List.mem_cons_self t rest
    refine ⟨?_, ?_⟩
    · refine MInv.mk ?_ ?_ ?_ ?_ ?_ ?_ ?_ ?_ ?_ ?_
      · exact (hInv.stackVis t htmem).1
      · exact (hInv.stackVis t htmem).2
      ·
        intro p hp
        exact hInv.stackVis p (hst ▸ List.mem_cons_of_mem t hp)
      · exact hInv.originVis
      ·
        intro h
        have hgl := hInv.lastOrigin hne
        rw [hst] at hgl
        cases rest with
        | nil => exact absurd rfl h
        | cons b l =>
          rw [List.getLast?_cons_cons] at hgl
          exact hgl
      ·
        intro h
        subst h
        have hgl := hInv.lastOrigin hne
        rw [hst] at hgl
        simpa using hgl
      ·
        intro p hb hv hn
        have hp_ne_cur : p ≠ s.cur := by
          intro he
          rw [he] at hn
          exact hn hns
        have h1 := hInv.occOne p hb hv hn
        unfold occ at h1 ⊢
        rw [hst, count_cons_pos] at h1
        rw [if_neg (show ¬(s.cur = p) from fun he => hp_ne_cur he.symm)] at h1
        show 1 ≤ rest.count p + (if t = p then 1 else 0)
        omega
      ·
        rcases hInv.occOrigin with h | h
        · by_cases hco : s.cur = ⟨0, 0⟩
          · exact Or.inr (hco ▸ hns)
          · left
            unfold occ at h ⊢
            rw [hst, count_cons_pos] at h
            rw [if_neg (show ¬(s.cur = ⟨0, 0⟩) from hco)] at h
            show 2 ≤ rest.count _ + (if t = _ then 1 else 0)
            omega
        · exact Or.inr h
      · exact hInv.carvesTotal
      · exact hInv.reach
    · unfold loopMeasure
      rw [hst]
      simp only [List.length_cons]
      omega
  · rw [mazeStep_eq_forward cols rows rng s t rest hst hns]
    have hpm := pickOf_mem cols rows rng s hns
    obtain ⟨hnv, hadj, hbnd⟩ :=
      mem_neighbors cols rows s.grid s.cur (pickOf cols rows rng s).1
        (pickOf cols rows rng s).2 hpm
    have hbnd' : bounded cols rows (pickOf cols rows rng s).1 := hbnd hInv.curBnd
    have hvis' := stepGrid_visited s.grid s.cur (pickOf cols rows rng s).1
      (pickOf cols rows rng s).2
    have hmono : ∀ y x, (s.grid y x).visited = true →
        ((updateCell (carve s.grid s.cur (pickOf cols rows rng s).1
          (pickOf cols rows rng s).2) (pickOf cols rows rng s).1.y
          (pickOf cols rows rng s).1.x fun c => { c with visited := true })
          y x).visited = true :=
      fun y x h => (hvis' y x).mpr (Or.inl h)
    have hwm : wallsMono s.grid
        (updateCell (carve s.grid s.cur (pickOf cols rows rng s).1
          (pickOf cols rows rng s).2) (pickOf cols rows rng s).1.y
          (pickOf cols rows rng s).1.x fun c => { c with visited := true }) :=
      wallsMono_trans (wallsMono_carve _ _ _ _) (wallsMono_update_visited _ _ _)
    have hcount := unvisitedCount_mark cols rows s.grid
      (updateCell (carve s.grid s.cur (pickOf cols rows rng s).1
        (pickOf cols rows rng s).2) (pickOf cols rows rng s).1.y
        (pickOf cols rows rng s).1.x fun c => { c with visited := true })
      (pickOf cols rows rng s).1 hbnd' hnv hvis'
    refine ⟨?_, ?_⟩
    · refine MInv.mk ?_ ?_ ?_ ?_ ?_ ?_ ?_ ?_ ?_ ?_
      · exact (hvis' _ _).mpr (Or.inr ⟨rfl, rfl⟩)
      · exact hbnd'
      ·
        intro p hp
        rcases List.mem_cons.mp hp with h | h
        · subst h
          exact ⟨hmono _ _ hInv.curVis, hInv.curBnd⟩
        · exact ⟨hmono _ _ (hInv.stackVis p h).1, (hInv.stackVis p h).2⟩
      · exact hmono _ _ hInv.originVis
      ·
        intro h
        rw [hst, List.getLast?_cons_cons, ← hst]
        exact hInv.lastOrigin hne
      ·
        intro h
        exact absurd h (by simp)
      ·
        intro p hb hv hn
        have hnp : neighbors cols rows s.grid p ≠ [] := by
          intro h0
          exact hn (neighbors_mono_nil cols rows s.grid _ p hmono h0)
        unfold occ
        show 1 ≤ (s.cur :: s.stack).count p + _
        rw [count_cons_pos]
        by_cases hp : (pickOf cols rows rng s).1 = p
        · rw [if_pos hp]
          omega
        · have hvp : (s.grid p.y p.x).visited = true := by
            rcases (hvis' p.y p.x).mp hv with h | ⟨h1, h2⟩
            · exact h
            · exact absurd ((posEq _ _).mpr ⟨h2.symm, h1.symm⟩) hp
          have h1 := hInv.occOne p hb hvp hnp
          unfold occ at h1
          rw [if_neg hp]
          omega
      ·
        have hpo : (pickOf cols rows rng s).1 ≠ ⟨0, 0⟩ := by
          intro he
          rw [he] at hnv
          show False
          rw [show (⟨0, 0⟩ : Pos).y = 0 from rfl, show (⟨0, 0⟩ : Pos).x = 0 from rfl] at hnv
          rw [hInv.originVis] at hnv
          exact Bool.noConfusion hnv
        rcases hInv.occOrigin with h | h
        · left
          unfold occ at h ⊢
          show 2 ≤ (s.cur :: s.stack).count _ + _
          rw [count_cons_pos]
          rw [if_neg hpo]
          omega
        · exact Or.inr (neighbors_mono_nil cols rows s.grid _ ⟨0, 0⟩ hmono h)
      ·
        have h0 := hInv.carvesTotal
        show s.carves + 1 + 1 + unvisitedCount cols rows
          (updateCell (carve s.grid s.cur (pickOf cols rows rng s).1
            (pickOf cols rows rng s).2) (pickOf cols rows rng s).1.y
            (pickOf cols rows rng s).1.x fun c => { c with visited := true }) =
          cols * rows
        omega
      ·
        intro p hb hv
        rcases (hvis' p.y p.x).mp hv with h | ⟨h1, h2⟩
        · exact Reach_mono _ _ hwm (hInv.reach p hb h)
        · have hp : p = (pickOf cols rows rng s).1 := (posEq _ _).mpr ⟨h2, h1⟩
          subst hp
          exact Relation.ReflTransGen.tail
            (Reach_mono _ _ hwm (hInv.reach s.cur hInv.curBnd hInv.curVis))
            (carve_adj s.grid s.cur _ _ hadj)
    · unfold loopMeasure
      simp only [List.length_cons]
      omega

end Maze
namespace Maze

/-- Running the loop with fuel at least the measure empties the stack and
preserves the invariant. -/
theorem mazeLoop_term (cols rows : Nat) (rng : Nat → Nat) :
    ∀ fuel s, MInv cols rows s → loopMeasure cols rows s ≤ fuel →
      (mazeLoop cols rows rng fuel s).stack = [] ∧
        MInv cols rows (mazeLoop cols rows rng fuel s) := by
  intro fuel
  induction fuel with
  | zero =>
    intro s hInv hm
    have hlen : s.stack.length = 0 := by
      unfold loopMeasure at hm
      omega
    exact ⟨List.length_eq_zero.mp hlen, hInv⟩
  | succ fuel ih =>
    intro s hInv hm
    unfold mazeLoop
    by_cases hs : s.stack = []
    · rw [if_pos hs]
      exact ⟨hs, hInv⟩
    · rw [if_neg hs]
      obtain ⟨hInv', hlt⟩ := mazeStep_preserve cols rows rng s hInv hs
      exact ih (mazeStep cols rows rng s) hInv' (by omega)

/-- After `2 * cols * rows` iterations the stack is empty and the
invariant holds. -/
theorem mazeFinal_inv (cols rows : Nat) (rng : Nat → Nat)
    (hc : 1 ≤ cols) (hr : 1 ≤ rows) :
    (mazeFinal cols rows rng).stack = [] ∧ MInv cols rows (mazeFinal cols rows rng) := by
  unfold mazeFinal
  apply mazeLoop_term cols rows rng (2 * cols * rows) (initState cols rows)
    (mazeInitState_inv cols rows hc hr)
  have hcnt := initState_count cols rows hc hr
  show 2 * unvisitedCount cols rows (initState cols rows).grid +
    ([⟨0, 0⟩] : List Pos).length ≤ 2 * cols * rows
  rw [Nat.mul_assoc]
  simp only [List.length_cons, List.length_nil]
  omega

/-- At loop exit every visited in-bounds cell has no unvisited neighbor. -/
theorem final_closed (cols rows : Nat) (s : MState) (hInv : MInv cols rows s)
    (hstack : s.stack = []) (p : Pos) (hb : bounded cols rows p)
    (hv : (s.grid p.y p.x).visited = true) :
    neighbors cols rows s.grid p = [] := by
  by_contra hn
  have h1 := hInv.occOne p hb hv hn
  unfold occ at h1
  rw [hstack] at h1
  simp only [List.count_nil] at h1
  have hcur : s.cur = p := by
    by_cases h : s.cur = p
    · exact h
    · rw [if_neg h] at h1
      omega
  have hco := hInv.emptyCur hstack
  rw [hco] at hcur
  rcases hInv.occOrigin with h2 | h2
  · unfold occ at h2
    rw [hstack] at h2
    simp only [List.count_nil] at h2
    rw [hco] at h2
    rw [if_pos rfl] at h2
    omega
  · rw [← hcur] at hn
    exact hn h2

/-- At loop exit every in-bounds cell is visited. -/
theorem final_all_visited (cols rows : Nat) (s : MState) (hInv : MInv cols rows s)
    (hstack : s.stack = []) (hr : 1 ≤ rows) :
    ∀ x, x < cols → ∀ y, y < rows → (s.grid y x).visited = true := by
  have hrow0 : ∀ x, x < cols → (s.grid 0 x).visited = true := by
    intro x
    induction x with
    | zero =>
      intro _
      exact hInv.originVis
    | succ x ihx =>
      intro hx
      have hvx := ihx (by omega)
      have hcl := final_closed cols rows s hInv hstack ⟨x, 0⟩
        ⟨show x < cols by omega, show 0 < rows by omega⟩ hvx
      exact (neighbors_nil_closed cols rows s.grid ⟨x, 0⟩ hcl).2.1 hx
  intro x hx y
  induction y with
  | zero =>
    intro _
    exact hrow0 x hx
  | succ y ihy =>
    intro hy
    have hvy := ihy (by omega)
    have hcl := final_closed cols rows s hInv hstack ⟨x, y⟩
      ⟨show x < cols from hx, show y < rows by omega⟩ hvy
    exact (neighbors_nil_closed cols rows s.grid ⟨x, y⟩ hcl).2.2.1 hy

/-- When every in-bounds cell is visited, the unvisited count is zero. -/
theorem final_unvisited_zero (cols rows : Nat) (s : MState)
    (hall : ∀ x, x < cols → ∀ y, y < rows → (s.grid y x).visited = true) :
    unvisitedCount cols rows s.grid = 0 := by
  unfold unvisitedCount
  rw [Finset.card_eq_zero, Finset.filter_eq_empty_iff]
  intro q hq
  simp only [Finset.mem_product, Finset.mem_range] at hq
  have := hall q.1 hq.1 q.2 hq.2
  simp [this]

/-! ### Claims about the maze generator -/

/-- C5: `generateMaze` terminates for every `cols, rows ≥ 1` and every
random stream: the depth-first backtracking loop reaches an empty stack
within `2 * cols * rows` iterations, with no failure modes and no
recovery logic needed. -/
theorem C5_terminates (cols rows : Nat) (rng : Nat → Nat)
    (hc : 1 ≤ cols) (hr : 1 ≤ rows) :
    (mazeFinal cols rows rng).stack = [] :=
  (mazeFinal_inv cols rows rng hc hr).1

/-- Witness for `C5_terminates` on a 2×2 maze with the all-zeros random
stream. -/
theorem C5_terminates_witness :
    (1 ≤ 2 ∧ 1 ≤ 2) ∧ (mazeFinal 2 2 (fun _ => 0)).stack = [] :=
  ⟨⟨by decide, by decide⟩, C5_terminates 2 2 (fun _ => 0) (by decide) (by decide)⟩

/-- C1: for every `cols, rows ≥ 1` and every random stream, the generated
maze is perfect: a flood-fill from `(0, 0)` through carved shared walls
reaches every one of the `cols * rows` cells, and the loop performs
exactly `cols * rows - 1` wall carvings, so the carved-passage graph is a
spanning tree of the grid graph. -/
theorem C1_spanning_tree (cols rows : Nat) (rng : Nat → Nat)
    (hc : 1 ≤ cols) (hr : 1 ≤ rows) :
    (∀ p : Pos, p.x < cols → p.y < rows →
      Reach (generateMaze cols rows rng) ⟨0, 0⟩ p) ∧
    (mazeFinal cols rows rng).carves = cols * rows - 1 := by
  obtain ⟨hstk, hInv⟩ := mazeFinal_inv cols rows rng hc hr
  have hall := final_all_visited cols rows (mazeFinal cols rows rng) hInv hstk hr
  constructor
  · intro p hx hy
    have hv := hall p.x hx p.y hy
    have hre := hInv.reach p ⟨hx, hy⟩ hv
    exact Reach_mono _ _ (wallsMono_openEnds cols rows _) hre
  · have hz := final_unvisited_zero cols rows (mazeFinal cols rows rng) hall
    have hct := hInv.carvesTotal
    omega

/-- Witness for `C1_spanning_tree` on a 2×2 maze with the all-zeros
random stream. -/
theorem C1_spanning_tree_witness :
    (∀ p : Pos, p.x < 2 → p.y < 2 → Reach (generateMaze 2 2 (fun _ => 0)) ⟨0, 0⟩ p) ∧
    (mazeFinal 2 2 (fun _ => 0)).carves = 2 * 2 - 1 :=
  C1_spanning_tree 2 2 (fun _ => 0) (by decide) (by decide)

/-- C8 counterexample: with invalid dimensions the maze generator fails
with the JavaScript `TypeError` of an undefined-cell access — not with a
designed `InvalidArgument` condition. -/
theorem C8_counterexample :
    generateMazeChecked 0 5 (fun _ => 0) = Except.error JsError.typeError ∧
    generateMazeChecked 0 5 (fun _ => 0) ≠ Except.error JsError.invalidArgument := by
  have h0 : generateMazeChecked 0 5 (fun _ => 0) = Except.error JsError.typeError := rfl
  refine ⟨h0, fun h => ?_⟩
  have h2 := h0.symm.trans h
  injection h2 with h3
  exact JsError.noConfusion h3

/-- C8 as amended: invalid dimensions (`cols ≤ 0` or `rows ≤ 0`) make the
maze generator fail with a hard error — an undefined-access `TypeError`,
not a designed `InvalidArgument` condition — and this is the maze
generator's only hard error: valid dimensions always succeed. -/
theorem C8_invalid_dims_hard_error (cols rows : Int) (rng : Nat → Nat) :
    ((cols ≤ 0 ∨ rows ≤ 0) →
      generateMazeChecked cols rows rng = Except.error JsError.typeError) ∧
    (0 < cols → 0 < rows →
      ∃ g, generateMazeChecked cols rows rng = Except.ok g) := by
  constructor
  · intro h
    unfold generateMazeChecked
    rw [if_neg]
    rintro ⟨h1, h2⟩
    rcases h with h | h <;> omega
  · intro h1 h2
    refine ⟨generateMaze cols.toNat rows.toNat rng, ?_⟩
    unfold generateMazeChecked
    rw [if_pos ⟨h1, h2⟩]

/-- Witness for `C8_invalid_dims_hard_error` at `(0, 5)` (invalid) and
`(2, 2)` (valid). -/
theorem C8_invalid_dims_hard_error_witness :
    ((0 : Int) ≤ 0 ∨ (5 : Int) ≤ 0) ∧
    generateMazeChecked 0 5 (fun _ => 0) = Except.error JsError.typeError ∧
    ((0 : Int) < 2 ∧ (0 : Int) < 2) ∧
    (∃ g, generateMazeChecked 2 2 (fun _ => 0) = Except.ok g) :=
  ⟨Or.inl (by decide),
   (C8_invalid_dims_hard_error 0 5 (fun _ => 0)).1 (Or.inl (by decide)),
   ⟨by decide, by decide⟩,
   (C8_invalid_dims_hard_error 2 2 (fun _ => 0)).2 (by decide) (by decide)⟩

end Maze
